import Mathlib

/-!
# Task routes of the task manager backend

A shallow embedding of `src/backend/routes/tasks.js` (the `POST /`, `PUT /:id`,
`DELETE /:id` and `GET /:id` handlers, the paging of `GET /`, and the `createActivity`
helper) and the properties of the task-mutation engine that the specification states about
them.

Conventions of the embedding

* A request body value is a `JVal`: the field is absent (`undefined`), JSON `null`, or a
  JSON string; numbers, booleans, arrays and objects in a body are outside the embedding.
  Identifiers are the hexadecimal strings of the object ids.
* A stored task is a `Task`, a document whose paths have the types the data model gives
  them; `Task.get` reads a path the way `task[field]` does and yields an `SVal`.
* A handler is a function from the state of the world before the request (`World`: the
  identity directory, the task store, the audit log and the events emitted so far) to the
  reply and the state of the world after it.
* The numbers of the paging code are doubles: `Num` with the rounding `toDouble`.
* What the handlers cannot decide from their arguments is in `Env`: the clock, the date
  parser, whether the store write and each audit write succeed, whether the socket server
  is registered, and the id the store gives a new document.
-/

namespace TaskManager

/-! ## Data model -/

/-- Modelled from the spec: `models/User.js` is not among the sources; the spec gives an
identity exactly two roles, and the handlers compare `role` with `'user'` and `'manager'`. -/
inductive Role
  | manager
  | user
  deriving DecidableEq, Repr

/-- An identity of the directory, as far as the task routes read it: `_id` and `role`. -/
structure User where
  id : String
  role : Role
  deriving DecidableEq, Repr

/-- A value of a request body field: absent, `null` or a string. -/
inductive JVal
  | undefined
  | null
  | str (s : String)
  deriving DecidableEq, Repr

/-- JavaScript truthiness of a body value: only a non-empty string is truthy. -/
def JVal.truthy : JVal → Bool
  | .str s => decide (s ≠ "")
  | _ => false

/-- The value of a `Date` path of a document. -/
inductive DateVal
  | undefined
  | null
  | instant (t : Int)
  deriving DecidableEq, Repr

/-- A value read from a path of a stored document (`task[field]`): strings for the `String`
paths, an object id for `assignedTo`, a `Date` for `dueDate`. -/
inductive SVal
  | undefined
  | null
  | str (s : String)
  | oid (s : String)
  | date (t : Int)
  deriving DecidableEq, Repr

/-- The six names of `updateFields`. -/
inductive Field
  | title
  | description
  | status
  | assignedTo
  | priority
  | dueDate
  deriving DecidableEq, Repr

/-- The list `updateFields` of `router.put('/:id')`, in its order. -/
def updateFields : List Field :=
  [.title, .description, .status, .assignedTo, .priority, .dueDate]

/-- A task document. -/
structure Task where
  id : String
  title : String
  description : JVal
  status : String
  priority : String
  createdBy : String
  assignedTo : String
  dueDate : DateVal
  deriving DecidableEq, Repr

/-- The `action` enum of `models/Activity.js`. -/
inductive Action
  | created
  | updated
  | deleted
  | status_changed
  | assigned
  deriving DecidableEq, Repr

/-- An audit record, the document `createActivity` hands to `Activity.create`. -/
structure Activity where
  task : String
  user : String
  action : Action
  field : Option Field
  oldValue : SVal
  newValue : JVal
  comment : JVal
  deriving DecidableEq, Repr

/-- The event names the routes emit. -/
inductive Event
  | taskUpdated
  | taskDeleted
  deriving DecidableEq, Repr

/-- One `io.to("user-" + recipient).emit(event, ...)`. -/
structure Emit where
  recipient : String
  event : Event
  deriving DecidableEq, Repr

/-- The body of a request, one value per key the routes read. -/
structure Body where
  title : JVal
  description : JVal
  status : JVal
  assignedTo : JVal
  priority : JVal
  dueDate : JVal
  comment : JVal
  deriving DecidableEq, Repr

/-- The body `{}`. -/
def Body.empty : Body :=
  ⟨.undefined, .undefined, .undefined, .undefined, .undefined, .undefined, .undefined⟩

/-- The expression `req.body[field]`. -/
def Body.get (b : Body) : Field → JVal
  | .title => b.title
  | .description => b.description
  | .status => b.status
  | .assignedTo => b.assignedTo
  | .priority => b.priority
  | .dueDate => b.dueDate

/-- The expression `task[field]`. -/
def Task.get (t : Task) : Field → SVal
  | .title => .str t.title
  | .description =>
    match t.description with
    | .undefined => .undefined
    | .null => .null
    | .str s => .str s
  | .status => .str t.status
  | .assignedTo => .oid t.assignedTo
  | .priority => .str t.priority
  | .dueDate =>
    match t.dueDate with
    | .undefined => .undefined
    | .null => .null
    | .instant d => .date d

/-- The comparison `req.body[field] === task[field]`: a body value is strictly equal to a
document value only when both are the same primitive; an object id and a `Date` are objects
and are never strictly equal to a value parsed from JSON. -/
def strictEq : JVal → SVal → Bool
  | .undefined, .undefined => true
  | .null, .null => true
  | .str a, .str b => decide (a = b)
  | _, _ => false

/-- The replies of the task routes, one constructor per `res.status(...).json(...)` site. -/
inductive Reply
  | ok
  | created
  | taskNotFound
  | accessDenied
  | statusOnly
  | selfAssignment
  | assigneeNotFound
  | assigneeIsManager
  | dueDateInPast
  | managersOnly
  | error
  | deleted
  | notCreator
  | serverError
  deriving DecidableEq, Repr

/-- The HTTP status of a reply. -/
def Reply.code : Reply → Nat
  | .ok => 200
  | .created => 201
  | .taskNotFound => 404
  | .accessDenied => 403
  | .statusOnly => 403
  | .selfAssignment => 400
  | .assigneeNotFound => 404
  | .assigneeIsManager => 400
  | .dueDateInPast => 400
  | .managersOnly => 403
  | .error => 400
  | .deleted => 200
  | .notCreator => 403
  | .serverError => 500

/-- The message of a reply that carries one (the `catch` block sends `error.message`). -/
def Reply.message : Reply → String
  | .taskNotFound => "Task not found"
  | .accessDenied => "Access denied"
  | .statusOnly => "Users can only update task status"
  | .selfAssignment => "Managers cannot assign tasks to themselves"
  | .assigneeNotFound => "Assigned user not found"
  | .assigneeIsManager => "Cannot assign tasks to managers"
  | .dueDateInPast => "Due date cannot be less than today"
  | .deleted => "Task deleted successfully"
  | .notCreator => "You can only delete tasks you created"
  | _ => ""

/-- What a handler takes from outside its arguments. -/
structure Env where
  /-- The instant `today` after `today.setHours(0, 0, 0, 0)`: the start of the current day. -/
  today : Int
  /-- The instant of `new Date(s)`, `none` for an invalid date. -/
  parseDate : String → Option Int
  /-- Whether the write of the task store (`task.save()`, `Task.findByIdAndDelete`) goes
  through. -/
  saveOk : Bool
  /-- Whether `Activity.create` of a record goes through. -/
  auditOk : Activity → Bool
  /-- Whether `req.app.get('io')` is set (`server.js` sets it). -/
  socket : Bool
  /-- The id of a document made by `new Task(...)`. -/
  freshId : String

/-- The state the routes read and write. -/
structure World where
  users : List User
  tasks : List Task
  log : List Activity
  sent : List Emit
  deriving DecidableEq, Repr

/-! ## Stores -/

/-- The query `User.findById(id)` for an id string. -/
def findUser (users : List User) (id : String) : Option User :=
  users.find? (fun u => decide (u.id = id))

/-- The query `Task.findById(id)`. -/
def findTask (tasks : List Task) (id : String) : Option Task :=
  tasks.find? (fun t => decide (t.id = id))

/-- The write `task.save()` of a fetched document: the stored document of that id is replaced. -/
def saveTask : List Task → Task → List Task
  | [], _ => []
  | t :: ts, doc => if t.id = doc.id then doc :: ts else t :: saveTask ts doc

/-- The default parameter `= null` of `createActivity` on a body value: an `undefined`
argument becomes `null`. -/
def orNull : JVal → JVal
  | .undefined => .null
  | v => v

/-- The default parameter `= null` of `createActivity` on a document value: an `undefined`
argument, the value of an unset path, becomes `null`. -/
def SVal.orNull : SVal → SVal
  | .undefined => .null
  | v => v

/-- The helper `createActivity`: the parameters `field`, `oldValue`, `newValue` and `comment`
default to `null` when the argument is `undefined` (an omitted `field` is `none`); the record
is appended when `Activity.create` goes through; when it throws, the error is logged and
swallowed and the log stays as it is. -/
def createActivity (env : Env) (log : List Activity) (taskId userId : String) (action : Action)
    (field : Option Field) (oldValue : SVal) (newValue : JVal) (comment : JVal) : List Activity :=
  let entry : Activity :=
    ⟨taskId, userId, action, field, oldValue.orNull, orNull newValue, orNull comment⟩
  if env.auditOk entry then log ++ [entry] else log

/-! ## The schema of a task -/

/-- The `status` enum of the data model. -/
def statuses : List String := ["pending", "in-progress", "completed"]

/-- The `priority` enum of the data model. -/
def priorities : List String := ["low", "medium", "high"]

/-- Modelled from the spec: `models/Task.js` is not among the sources.  The assignment
`task[field] = value` followed by the validation of `task.save()`, for a value that is not
`undefined`, by the data model of the spec: `title` is non-empty text, `description` and
`dueDate` are optional, `status` and `priority` range over their enums, `assignedTo` is an
identity reference.  The result is `none` when the value cannot be cast to the path or fails
its validator, in which case `save()` throws. -/
def Task.assign (env : Env) (t : Task) : Field → JVal → Option Task
  | .title, .str s => if s = "" then none else some { t with title := s }
  | .title, _ => none
  | .description, .str s => some { t with description := .str s }
  | .description, _ => some { t with description := .null }
  | .status, .str s => if s ∈ statuses then some { t with status := s } else none
  | .status, _ => none
  | .assignedTo, .str s => if s = "" then none else some { t with assignedTo := s }
  | .assignedTo, _ => none
  | .priority, .str s => if s ∈ priorities then some { t with priority := s } else none
  | .priority, _ => none
  | .dueDate, .str s =>
    if s = "" then some { t with dueDate := .null }
    else match env.parseDate s with
      | some d => some { t with dueDate := .instant d }
      | none => none
  | .dueDate, _ => some { t with dueDate := .null }

/-- Modelled from the spec: `models/Task.js` is not among the sources.  The document
`new Task({ title, description, createdBy, assignedTo, priority, dueDate })` as `save()`
validates it: a key whose value is `undefined` is left unset, `title` and `assignedTo` are
required, `status` starts as `pending`. -/
def newTask (env : Env) (requester : User) (title description assignedTo priority dueDate : JVal) :
    Option Task :=
  let t0 : Task :=
    { id := env.freshId, title := "", description := .undefined, status := "pending",
      priority := "medium", createdBy := requester.id, assignedTo := "", dueDate := .undefined }
  match t0.assign env .title title with
  | none => none
  | some t1 =>
    match (if description = .undefined then some t1 else t1.assign env .description description) with
    | none => none
    | some t2 =>
      match t2.assign env .assignedTo assignedTo with
      | none => none
      | some t3 =>
        match t3.assign env .priority priority with
        | none => none
        | some t4 => if dueDate = .undefined then some t4 else t4.assign env .dueDate dueDate

/-! ## Validation blocks of the handlers -/

/-- The due date block of both handlers (lines 168-175 and 253-260): for a truthy value,
`new Date(value) < today` with `today` at the start of the day.  An invalid date compares
false. -/
def dueDateRejected (env : Env) : JVal → Bool
  | .str s =>
    if s = "" then false
    else match env.parseDate s with
      | some d => decide (d < env.today)
      | none => false
  | _ => false

/-- The assignee block of `router.post('/')` (lines 154-165): the self-assignment test for a
truthy value, then `User.findById(assignedTo)`, which resolves to nothing for an absent or
`null` id and throws for the empty string, then the role test. -/
def postAssignee (users : List User) (requester : User) : JVal → Option Reply
  | .str s =>
    if s = "" then some .error
    else if s = requester.id then some .selfAssignment
    else match findUser users s with
      | none => some .assigneeNotFound
      | some u => if u.role = Role.manager then some .assigneeIsManager else none
  | _ => some .assigneeNotFound

/-- The assignee block of `router.put('/:id')` (lines 237-250), entered only for a truthy
value. -/
def putAssignee (users : List User) (requester : User) : JVal → Option Reply
  | .str s =>
    if s = "" then none
    else if s = requester.id then some .selfAssignment
    else match findUser users s with
      | none => some .assigneeNotFound
      | some u => if u.role = Role.manager then some .assigneeIsManager else none
  | _ => none

/-! ## `router.put('/:id')` -/

/-- The state of the update handler between the fetch and the save: the fetched document with
the assignments made so far, whether one of them cannot be saved, and the audit log. -/
structure Draft where
  doc : Task
  invalid : Bool
  log : List Activity

/-- The assignment `task[field] = value` on a draft. -/
def Draft.set (env : Env) (st : Draft) (log : List Activity) (field : Field) (v : JVal) : Draft :=
  match st.doc.assign env field v with
  | some doc => { doc := doc, invalid := st.invalid, log := log }
  | none => { doc := st.doc, invalid := true, log := log }

/-- The branch for role `user` (lines 216-230).  The first component is the reply of an early
`return`. -/
def userBranch (env : Env) (requester : User) (body : Body) (st : Draft) : Option Reply × Draft :=
  if st.doc.assignedTo ≠ requester.id then (some .accessDenied, st)
  else if body.status.truthy = true then
    if strictEq body.status (.str st.doc.status) = false then
      let log := createActivity env st.log st.doc.id requester.id .status_changed (some .status)
        (.str st.doc.status) body.status body.comment
      (none, st.set env log .status body.status)
    else (none, st)
  else (some .statusOnly, st)

/-- One turn of the loop over `updateFields` (lines 235-264). -/
def managerStep (env : Env) (users : List User) (requester : User) (body : Body) (field : Field)
    (st : Draft) : Option Reply × Draft :=
  let v := body.get field
  if v = .undefined ∨ strictEq v (st.doc.get field) = true then (none, st)
  else
    match (if field = Field.assignedTo then putAssignee users requester v else none) with
    | some r => (some r, st)
    | none =>
      if field = Field.dueDate ∧ dueDateRejected env v = true then (some .dueDateInPast, st)
      else
        let log := createActivity env st.log st.doc.id requester.id .updated (some field)
          (st.doc.get field) v (if field = Field.status then body.comment else .null)
        (none, st.set env log field v)

/-- The loop `for (const field of updateFields)`; a `return` inside it ends the handler. -/
def managerLoop (env : Env) (users : List User) (requester : User) (body : Body) :
    List Field → Draft → Option Reply × Draft
  | [], st => (none, st)
  | f :: fs, st =>
    match managerStep env users requester body f st with
    | (some r, st1) => (some r, st1)
    | (none, st1) => managerLoop env users requester body fs st1

/-- The events after a save (lines 271-285): the new assignee, the old assignee when it is
another one, the creator when it is not the new assignee. -/
def putEmits (env : Env) (oldAssignedTo : String) (task : Task) : List Emit :=
  if env.socket = true then
    [⟨task.assignedTo, .taskUpdated⟩]
      ++ (if oldAssignedTo ≠ task.assignedTo then [⟨oldAssignedTo, .taskUpdated⟩] else [])
      ++ (if task.createdBy ≠ task.assignedTo then [⟨task.createdBy, .taskUpdated⟩] else [])
  else []

/-- The rest of the update handler once the permission block is through (lines 268-291), or
the reply of a `return` inside that block: `task.save()` throws when an assigned value does
not validate or the store write fails, and the `catch` block answers 400; after a save the
events are emitted and the task is sent back. -/
def putFinish (env : Env) (w : World) (oldAssignedTo : String) :
    Option Reply × Draft → Reply × World
  | (some r, st) => (r, { w with log := st.log })
  | (none, st) =>
    if st.invalid = true ∨ env.saveOk = false then (.error, { w with log := st.log })
    else
      (.ok, { users := w.users, tasks := saveTask w.tasks st.doc, log := st.log,
              sent := w.sent ++ putEmits env oldAssignedTo st.doc })

/-- The handler `router.put('/:id', auth, ...)` for the identity `requester` that `auth` put
in `req.user`. -/
def putTask (env : Env) (w : World) (requester : User) (id : String) (body : Body) :
    Reply × World :=
  match findTask w.tasks id with
  | none => (.taskNotFound, w)
  | some task =>
    let oldAssignedTo := task.assignedTo
    let st0 : Draft := { doc := task, invalid := false, log := w.log }
    putFinish env w oldAssignedTo
      (if requester.role = Role.user then userBranch env requester body st0
       else managerLoop env w.users requester body updateFields st0)

/-! ## `router.post('/')` -/

/-- Modelled from the spec: `middleware/auth.js` is not among the sources; `isManager` lets a
request through only for role `manager` (creation rule of the authorization gate). -/
def isManager (requester : User) : Bool :=
  decide (requester.role = Role.manager)

/-- The handler `router.post('/', auth, isManager, ...)`. -/
def postTask (env : Env) (w : World) (requester : User) (body : Body) : Reply × World :=
  if isManager requester = false then (.managersOnly, w)
  else
    match postAssignee w.users requester body.assignedTo with
    | some r => (r, w)
    | none =>
      if dueDateRejected env body.dueDate = true then (.dueDateInPast, w)
      else
        match newTask env requester body.title body.description body.assignedTo
            (if body.priority.truthy = true then body.priority else .str "medium")
            body.dueDate with
        | none => (.error, w)
        | some task =>
          if env.saveOk = false then (.error, w)
          else
            let log := createActivity env w.log task.id requester.id .created none .null .null .null
            (.created, { users := w.users, tasks := w.tasks ++ [task], log := log,
                         sent := if env.socket = true
                           then w.sent ++ [⟨task.assignedTo, .taskUpdated⟩] else w.sent })

/-! ## `router.delete('/:id')` -/

/-- The write `Task.findByIdAndDelete(id)`: the stored document of that id is removed. -/
def removeTask : List Task → String → List Task
  | [], _ => []
  | t :: ts, id => if t.id = id then ts else t :: removeTask ts id

/-- The handler `router.delete('/:id', auth, isManager, ...)`: the `deleted` record is written
before the store is asked to delete, and the `catch` block answers 500. -/
def deleteTask (env : Env) (w : World) (requester : User) (id : String) : Reply × World :=
  if isManager requester = false then (.managersOnly, w)
  else
    match findTask w.tasks id with
    | none => (.taskNotFound, w)
    | some task =>
      if task.createdBy ≠ requester.id then (.notCreator, w)
      else
        let log := createActivity env w.log task.id requester.id .deleted none .null .null .null
        if env.saveOk = false then (.serverError, { w with log := log })
        else
          (.deleted, { users := w.users, tasks := removeTask w.tasks id, log := log,
                       sent := if env.socket = true
                         then w.sent ++ [⟨task.assignedTo, .taskDeleted⟩] else w.sent })

/-! ## `router.get('/:id')` -/

/-- The handler `router.get('/:id', auth, ...)` (lines 127-146): 404 without a task of that
id; for role `user` the populated assignee is compared with the requester, which throws, and
is answered 500, when the assignee is no identity of the directory; every other requester is
sent the task. -/
def getTask (w : World) (requester : User) (id : String) : Reply × Option Task :=
  match findTask w.tasks id with
  | none => (.taskNotFound, none)
  | some task =>
    if requester.role = Role.user then
      match findUser w.users task.assignedTo with
      | none => (.serverError, none)
      | some u => if u.id ≠ requester.id then (.accessDenied, none) else (.ok, some task)
    else (.ok, some task)

/-! ## Paging of `router.get('/')` -/

/-- A JavaScript number, as far as the paging code can tell numbers apart: `NaN`, an
infinity, or a finite double given by its rational value.  The sign of a zero is not kept: the
code never divides by a zero and treats both zeros as falsy. -/
inductive Num
  | nan
  | inf (negative : Bool)
  | fin (q : ℚ)
  deriving DecidableEq, Repr

/-- Rounding of a rational to the nearest integer, a tie going to the even one. -/
def roundHalfEven (x : ℚ) : ℤ :=
  let f := ⌊x⌋
  let r := x - f
  if r < 1 / 2 then f
  else if 1 / 2 < r then f + 1
  else if f % 2 = 0 then f
  else f + 1

/-- The double nearest to a real result (IEEE 754 binary64, round to nearest, ties to even):
53 significant bits above the exponent `-1022`, fixed steps of `2 ^ (-1074)` below it, and an
infinity when the rounded magnitude reaches `2 ^ 1024`. -/
def toDouble (q : ℚ) : Num :=
  if q = 0 then .fin 0
  else
    let a := |q|
    let e := max (Int.log 2 a) (-1022)
    let u : ℚ := (2 : ℚ) ^ (e - 52)
    let r : ℚ := (roundHalfEven (a / u) : ℚ) * u
    if (2 : ℚ) ^ (1024 : ℕ) ≤ r then .inf (decide (q < 0))
    else .fin (if q < 0 then -r else r)

/-- The difference `a - b` of two numbers. -/
def Num.sub : Num → Num → Num
  | .nan, _ => .nan
  | _, .nan => .nan
  | .inf s, .inf t => if s = t then .nan else .inf s
  | .inf s, .fin _ => .inf s
  | .fin _, .inf t => .inf (!t)
  | .fin a, .fin b => toDouble (a - b)

/-- The product `a * b` of two numbers. -/
def Num.mul : Num → Num → Num
  | .nan, _ => .nan
  | _, .nan => .nan
  | .inf s, .inf t => .inf (s != t)
  | .inf s, .fin b => if b = 0 then .nan else .inf (s != decide (b < 0))
  | .fin a, .inf t => if a = 0 then .nan else .inf (decide (a < 0) != t)
  | .fin a, .fin b => toDouble (a * b)

/-- The quotient `a / b` of two numbers; a division by zero gives `NaN` for `0 / 0` and
otherwise an infinity with the sign of the dividend. -/
def Num.div : Num → Num → Num
  | .nan, _ => .nan
  | _, .nan => .nan
  | .inf _, .inf _ => .nan
  | .inf s, .fin b => .inf (s != decide (b < 0))
  | .fin _, .inf _ => .fin 0
  | .fin a, .fin b =>
    if b = 0 then (if a = 0 then .nan else .inf (decide (a < 0)))
    else toDouble (a / b)

/-- The builtin `Math.ceil`. -/
def Num.ceil : Num → Num
  | .fin q => .fin (⌈q⌉ : ℤ)
  | x => x

/-- The comparison `a < b` of two numbers; false when one of them is `NaN`. -/
def Num.lt : Num → Num → Bool
  | .fin a, .fin b => decide (a < b)
  | .fin _, .inf t => !t
  | .inf s, .fin _ => s
  | .inf s, .inf t => s && !t
  | _, _ => false

/-- Truthiness of a number: `NaN` and zero are falsy. -/
def Num.truthy : Num → Bool
  | .nan => false
  | .inf _ => true
  | .fin q => decide (q ≠ 0)

/-- The white space that `parseInt` skips at the head of a string (`StrWhiteSpaceChar`): tab,
line feed, vertical tab, form feed, carriage return, space, no-break space, the other space
separators U+1680, U+2000 to U+200A, U+202F, U+205F and U+3000, the line and paragraph
separators U+2028 and U+2029, and U+FEFF. -/
def isStrWhiteSpace (c : Char) : Bool :=
  let n := c.toNat
  decide ((9 ≤ n ∧ n ≤ 13) ∨ n = 32 ∨ n = 160 ∨ n = 5760 ∨ (8192 ≤ n ∧ n ≤ 8202)
    ∨ n = 8232 ∨ n = 8233 ∨ n = 8239 ∨ n = 8287 ∨ n = 12288 ∨ n = 65279)

/-- The value of a digit character in a radix, as `parseInt` reads it. -/
def digitOf (radix : Nat) (c : Char) : Option Nat :=
  let n := c.toNat
  let v : Option Nat :=
    if 48 ≤ n ∧ n ≤ 57 then some (n - 48)
    else if 97 ≤ n ∧ n ≤ 122 then some (n - 87)
    else if 65 ≤ n ∧ n ≤ 90 then some (n - 55)
    else none
  match v with
  | some d => if d < radix then some d else none
  | none => none

/-- The longest run of digits at the head of a list of characters, as a number; the
accumulator is `none` until a digit has been read. -/
def readDigits (radix : Nat) : List Char → Option Nat → Option Nat
  | [], acc => acc
  | c :: cs, acc =>
    match digitOf radix c with
    | some d => readDigits radix cs (some (acc.getD 0 * radix + d))
    | none => acc

/-- The mathematical integer that `parseInt(value)` reads from a query parameter that is
missing or a string: leading white space is skipped, a sign is read, `0x` selects radix 16,
and the longest run of digits is the value; `none` when there is no digit, or no
parameter. -/
def parsedInteger : Option String → Option Int
  | none => none
  | some s =>
    let cs := s.toList.dropWhile isStrWhiteSpace
    let neg : Bool := decide (cs.head? = some '-')
    let cs1 : List Char :=
      match cs with
      | c :: r => if c = '-' ∨ c = '+' then r else cs
      | [] => cs
    let hex : Bool :=
      match cs1 with
      | a :: b :: _ => decide (a = '0' ∧ (b = 'x' ∨ b = 'X'))
      | _ => false
    let digits : Option Nat :=
      if hex = true then readDigits 16 (cs1.drop 2) none else readDigits 10 cs1 none
    digits.map fun n => if neg = true then -(n : Int) else (n : Int)

/-- The builtin `parseInt(value)`: `NaN` when no integer is read, otherwise the double nearest
to the integer read (the language lets an implementation drop decimal digits after the
twentieth; Node.js rounds the full run of digits). -/
def parseInt (value : Option String) : Num :=
  match parsedInteger value with
  | none => .nan
  | some n => toDouble (n : ℚ)

/-- The expression `parsed || fallback` on a number. -/
def orDefault (parsed : Num) (fallback : ℚ) : Num :=
  if parsed.truthy = true then parsed else .fin fallback

/-- The expression `Math.ceil(total / limit)` for the count `total` of `countDocuments`. -/
def ceilDiv (total : Nat) (limit : Num) : Num :=
  (Num.div (toDouble (total : ℚ)) limit).ceil

/-- The object `pagination` of the list reply. -/
structure Pagination where
  currentPage : Num
  totalPages : Num
  totalTasks : Nat
  hasNext : Bool
  hasPrev : Bool
  deriving DecidableEq, Repr

/-- The constant `page` of the list handler (line 29). -/
def pageOf (pageQuery : Option String) : Num :=
  orDefault (parseInt pageQuery) 1

/-- The constant `limit` of the list handler (line 30). -/
def limitOf (limitQuery : Option String) : Num :=
  orDefault (parseInt limitQuery) 10

/-- The constant `skip` of the list handler (line 31). -/
def skipOf (pageQuery limitQuery : Option String) : Num :=
  ((pageOf pageQuery).sub (.fin 1)).mul (limitOf limitQuery)

/-- The `pagination` object of `router.get('/')` (lines 55-61) for the query parameters `page`
and `limit` and the count `total` of the documents the query matches. -/
def listPagination (pageQuery limitQuery : Option String) (total : Nat) : Pagination :=
  let page := pageOf pageQuery
  let limit := limitOf limitQuery
  { currentPage := page
    totalPages := ceilDiv total limit
    totalTasks := total
    hasNext := Num.lt page (ceilDiv total limit)
    hasPrev := Num.lt (.fin 1) page }

/-! ## A small world for concrete runs -/

/-- A clock at instant 100 and a parser that knows three date strings. -/
def demoEnv : Env :=
  { today := 100
    parseDate := fun s =>
      if s = "today" then some 100
      else if s = "yesterday" then some 99
      else if s = "next-year" then some 36600
      else none
    saveOk := true
    auditOk := fun _ => true
    socket := true
    freshId := "t9" }

/-- The manager who created the demo task. -/
def mgrA : User := ⟨"m1", .manager⟩

/-- Another manager. -/
def mgrB : User := ⟨"m2", .manager⟩

/-- The assignee of the demo task. -/
def usrA : User := ⟨"u1", .user⟩

/-- Another user. -/
def usrB : User := ⟨"u2", .user⟩

/-- A pending task created by `mgrA` and assigned to `usrA`. -/
def demoTask : Task :=
  { id := "t1", title := "Write report", description := .undefined, status := "pending",
    priority := "medium", createdBy := "m1", assignedTo := "u1", dueDate := .undefined }

/-- A world with two managers, two users and the demo task. -/
def demoWorld : World :=
  { users := [mgrA, mgrB, usrA, usrB], tasks := [demoTask], log := [], sent := [] }

/-! ## Basic facts -/

theorem findTask_mem {tasks : List Task} {id : String} {t : Task}
    (h : findTask tasks id = some t) : t ∈ tasks :=
  List.mem_of_find?_eq_some h

theorem findTask_id {tasks : List Task} {id : String} {t : Task}
    (h : findTask tasks id = some t) : t.id = id := by
  have := List.find?_some h
  simpa using this

theorem saveTask_found {tasks : List Task} {id : String} {t : Task}
    (h : findTask tasks id = some t) : saveTask tasks t = tasks := by
  induction tasks with
  | nil => simp [findTask] at h
  | cons x xs ih =>
    unfold findTask at h
    rw [List.find?_cons] at h
    by_cases hx : x.id = id
    · simp [hx] at h
      subst h
      simp [saveTask]
    · simp [hx] at h
      have hid : t.id = id := @findTask_id xs id t (by simpa [findTask] using h)
      have hne : ¬ x.id = t.id := by rw [hid]; exact hx
      simp [saveTask, hne, ih (by simpa [findTask] using h)]

theorem mem_saveTask {tasks : List Task} {doc x : Task}
    (h : x ∈ saveTask tasks doc) : x ∈ tasks ∨ x = doc := by
  induction tasks with
  | nil => simp [saveTask] at h
  | cons y ys ih =>
    unfold saveTask at h
    split at h
    · rcases List.mem_cons.mp h with h1 | h1
      · exact Or.inr h1
      · exact Or.inl (List.mem_cons_of_mem _ h1)
    · rcases List.mem_cons.mp h with h1 | h1
      · exact Or.inl (h1 ▸ List.mem_cons_self _ _)
      · rcases ih h1 with h2 | h2
        · exact Or.inl (List.mem_cons_of_mem _ h2)
        · exact Or.inr h2

/-! ## Updates by role `user` -/

/-- The body of a `user` request as the handler reads it: `status` and `comment` only. -/
def Body.statusPart (b : Body) : Body :=
  { Body.empty with status := b.status, comment := b.comment }

theorem putFinish_some (env : Env) (w : World) (old : String) (r : Reply) (st : Draft) :
    putFinish env w old (some r, st) = (r, { w with log := st.log }) :=
  rfl

theorem putFinish_none_reply (env : Env) (w : World) (old : String) (st : Draft) :
    (putFinish env w old (none, st)).1 = Reply.ok
      ∨ (putFinish env w old (none, st)).1 = Reply.error := by
  by_cases hc : st.invalid = true ∨ env.saveOk = false
  · right; simp [putFinish, hc]
  · left; simp [putFinish, hc]

theorem putFinish_of_none (env : Env) (w : World) (old : String) (p : Option Reply × Draft)
    (h : p.1 = none) :
    (putFinish env w old p).1 = Reply.ok ∨ (putFinish env w old p).1 = Reply.error := by
  obtain ⟨o, st⟩ := p
  simp only at h
  subst h
  exact putFinish_none_reply env w old st

theorem userBranch_passes (env : Env) (requester : User) (body : Body) (st : Draft)
    (hmine : st.doc.assignedTo = requester.id) (h : body.status.truthy = true) :
    (userBranch env requester body st).1 = none := by
  unfold userBranch
  simp only [hmine, h, ne_eq, not_true_eq_false, if_false, if_true]
  split <;> rfl

theorem putTask_user_eq (env : Env) (w : World) (requester : User) (id : String) (body : Body)
    (task : Task) (hfind : findTask w.tasks id = some task) (hrole : requester.role = Role.user) :
    putTask env w requester id body =
      putFinish env w task.assignedTo
        (userBranch env requester body { doc := task, invalid := false, log := w.log }) := by
  simp [putTask, hfind, hrole]

/-- C1 (code defect, evaluated): the assignee `u1` sends the body of a drag and drop,
`status: "in-progress"` with no comment, for the pending task `t1`.  The handler replies 200,
stores the new status and appends a `status_changed` record whose comment is `null`; it does
not reject the request for the missing comment. -/
theorem C1_status_change_without_comment_is_accepted :
    putTask demoEnv demoWorld usrA "t1" { Body.empty with status := .str "in-progress" }
      = (Reply.ok,
         { users := demoWorld.users
           tasks := [{ demoTask with status := "in-progress" }]
           log := [⟨"t1", "u1", .status_changed, some .status, .str "pending",
                    .str "in-progress", .null⟩]
           sent := [⟨"u1", .taskUpdated⟩, ⟨"m1", .taskUpdated⟩] }) := by
  decide

/-- C2 (code defect, evaluated): the manager `m2`, who did not create the task `t1`, sends a new
title for it.  The handler does not reply 403: it runs the field loop, replies 200, stores the
title, appends an `updated` record and emits the events. -/
theorem C2_update_by_other_manager_is_accepted :
    putTask demoEnv demoWorld mgrB "t1" { Body.empty with title := .str "Taken over" }
      = (Reply.ok,
         { users := demoWorld.users
           tasks := [{ demoTask with title := "Taken over" }]
           log := [⟨"t1", "m2", .updated, some .title, .str "Write report",
                    .str "Taken over", .null⟩]
           sent := [⟨"u1", .taskUpdated⟩, ⟨"m1", .taskUpdated⟩] }) := by
  decide

/-- C3: an update of an existing task by a requester of role `user` who is not the task's
assignee is answered 403 `Access denied` whatever the body holds, and the world after the
request is the world before it: the stored task, the audit log and the emitted events are
unchanged. -/
theorem C3_update_by_non_assignee_user_denied (env : Env) (w : World) (requester : User)
    (id : String) (body : Body) (task : Task)
    (hfind : findTask w.tasks id = some task)
    (hrole : requester.role = Role.user)
    (hother : requester.id ≠ task.assignedTo) :
    putTask env w requester id body = (Reply.accessDenied, w)
      ∧ Reply.accessDenied.code = 403 := by
  refine ⟨?_, rfl⟩
  rw [putTask_user_eq env w requester id body task hfind hrole]
  simp [userBranch, Ne.symm hother, putFinish_some]

/-- C3, at a concrete request on the demo world. -/
theorem C3_update_by_non_assignee_user_denied_witness :
    putTask demoEnv demoWorld usrB "t1" { Body.empty with status := .str "completed" }
        = (Reply.accessDenied, demoWorld)
      ∧ Reply.accessDenied.code = 403 :=
  C3_update_by_non_assignee_user_denied demoEnv demoWorld usrB "t1"
    { Body.empty with status := .str "completed" } demoTask (by decide) (by decide) (by decide)

/-- C4 (counterexample): the assignee `u1` sends `status: "completed"` together with a
`title`.  The request is not rejected: the reply is 200, the status is stored and the title is
dropped without an error. -/
theorem C4_extra_field_with_status_not_rejected :
    putTask demoEnv demoWorld usrA "t1"
        { Body.empty with status := .str "completed", title := .str "Renamed" }
      = (Reply.ok,
         { users := demoWorld.users
           tasks := [{ demoTask with status := "completed" }]
           log := [⟨"t1", "u1", .status_changed, some .status, .str "pending",
                    .str "completed", .null⟩]
           sent := [⟨"u1", .taskUpdated⟩, ⟨"m1", .taskUpdated⟩] }) := by
  decide

/-- C4 (amended): for an update by the `user`-role assignee, a request without a truthy
`status` is answered 403 `Users can only update task status` and changes nothing, whatever
other fields it holds; a request with a truthy `status` is never answered with that reply, and
its other task fields are dropped silently: reply and resulting world are those of the request
reduced to `status` and `comment`. -/
theorem C4_user_update_reads_status_only (env : Env) (w : World) (requester : User)
    (id : String) (body : Body) (task : Task)
    (hfind : findTask w.tasks id = some task)
    (hrole : requester.role = Role.user)
    (hmine : task.assignedTo = requester.id) :
    (body.status.truthy = false → putTask env w requester id body = (Reply.statusOnly, w))
      ∧ (body.status.truthy = true → (putTask env w requester id body).1 ≠ Reply.statusOnly)
      ∧ putTask env w requester id body = putTask env w requester id body.statusPart := by
  rw [putTask_user_eq env w requester id body task hfind hrole,
    putTask_user_eq env w requester id body.statusPart task hfind hrole]
  refine ⟨?_, ?_, ?_⟩
  · intro h
    simp [userBranch, hmine, h, putFinish_some]
  · intro h
    rcases putFinish_of_none env w task.assignedTo _
      (userBranch_passes env requester body { doc := task, invalid := false, log := w.log }
        hmine h) with h1 | h1 <;> rw [h1] <;> decide
  · simp [userBranch, Body.statusPart, Body.empty]

/-- C4, at a concrete request on the demo world. -/
theorem C4_user_update_reads_status_only_witness :
    putTask demoEnv demoWorld usrA "t1" { Body.empty with title := .str "Renamed" }
        = (Reply.statusOnly, demoWorld)
      ∧ (putTask demoEnv demoWorld usrA "t1"
          { Body.empty with status := .str "completed", title := .str "Renamed" }).1
          ≠ Reply.statusOnly
      ∧ putTask demoEnv demoWorld usrA "t1"
          { Body.empty with status := .str "completed", title := .str "Renamed" }
        = putTask demoEnv demoWorld usrA "t1"
          (Body.statusPart { Body.empty with status := .str "completed", title := .str "Renamed" }) :=
  ⟨(C4_user_update_reads_status_only demoEnv demoWorld usrA "t1"
      { Body.empty with title := .str "Renamed" } demoTask
      (by decide) (by decide) (by decide)).1 (by decide),
    (C4_user_update_reads_status_only demoEnv demoWorld usrA "t1"
      { Body.empty with status := .str "completed", title := .str "Renamed" } demoTask
      (by decide) (by decide) (by decide)).2.1 (by decide),
    (C4_user_update_reads_status_only demoEnv demoWorld usrA "t1"
      { Body.empty with status := .str "completed", title := .str "Renamed" } demoTask
      (by decide) (by decide) (by decide)).2.2⟩

/-- C5: an update by the `user`-role assignee whose body carries no `status` value (the key is
absent, `null` or the empty string), such as a body with a `title` only, is answered 403 `Users
can only update task status`, and the world after the request is the world before it: the
stored task is unchanged and no audit record is appended. -/
theorem C5_user_update_without_status_rejected (env : Env) (w : World) (requester : User)
    (id : String) (body : Body) (task : Task)
    (hfind : findTask w.tasks id = some task)
    (hrole : requester.role = Role.user)
    (hmine : task.assignedTo = requester.id)
    (hstatus : body.status = JVal.undefined ∨ body.status = JVal.null
      ∨ body.status = JVal.str "") :
    putTask env w requester id body = (Reply.statusOnly, w)
      ∧ Reply.statusOnly.code = 403
      ∧ (putTask env w requester id body).2.tasks = w.tasks
      ∧ (putTask env w requester id body).2.log = w.log := by
  have h : putTask env w requester id body = (Reply.statusOnly, w) := by
    rw [putTask_user_eq env w requester id body task hfind hrole]
    rcases hstatus with h | h | h <;> simp [userBranch, hmine, h, JVal.truthy, putFinish_some]
  simp [h, Reply.code]

/-- C5, at a concrete request on the demo world. -/
theorem C5_user_update_without_status_rejected_witness :
    putTask demoEnv demoWorld usrA "t1" { Body.empty with title := .str "new" }
        = (Reply.statusOnly, demoWorld)
      ∧ Reply.statusOnly.code = 403
      ∧ (putTask demoEnv demoWorld usrA "t1" { Body.empty with title := .str "new" }).2.tasks
        = demoWorld.tasks
      ∧ (putTask demoEnv demoWorld usrA "t1" { Body.empty with title := .str "new" }).2.log
        = demoWorld.log :=
  C5_user_update_without_status_rejected demoEnv demoWorld usrA "t1"
    { Body.empty with title := .str "new" } demoTask (by decide) (by decide) (by decide)
    (Or.inl (by decide))

/-! ## The loop over `updateFields` -/

theorem putTask_manager_eq (env : Env) (w : World) (requester : User) (id : String) (body : Body)
    (task : Task) (hfind : findTask w.tasks id = some task)
    (hrole : requester.role = Role.manager) :
    putTask env w requester id body =
      putFinish env w task.assignedTo
        (managerLoop env w.users requester body updateFields
          { doc := task, invalid := false, log := w.log }) := by
  simp [putTask, hfind, hrole]

theorem managerLoop_cons_none {env : Env} {users : List User} {requester : User} {body : Body}
    {f : Field} {fs : List Field} {st : Draft}
    (h : (managerStep env users requester body f st).1 = none) :
    managerLoop env users requester body (f :: fs) st
      = managerLoop env users requester body fs (managerStep env users requester body f st).2 := by
  rw [managerLoop]
  generalize managerStep env users requester body f st = p at h
  obtain ⟨o, st1⟩ := p
  simp only at h
  subst h
  rfl

theorem managerLoop_cons_some {env : Env} {users : List User} {requester : User} {body : Body}
    {f : Field} {fs : List Field} {st : Draft} {r : Reply}
    (h : (managerStep env users requester body f st).1 = some r) :
    managerLoop env users requester body (f :: fs) st
      = managerStep env users requester body f st := by
  rw [managerLoop]
  generalize managerStep env users requester body f st = p at h
  obtain ⟨o, st1⟩ := p
  simp only at h
  subst h
  rfl

/-- A turn for a field other than `assignedTo` and `dueDate` has no `return`. -/
theorem managerStep_plain (env : Env) (users : List User) (requester : User) (body : Body)
    (f : Field) (st : Draft) (h1 : f ≠ Field.assignedTo) (h2 : f ≠ Field.dueDate) :
    (managerStep env users requester body f st).1 = none := by
  unfold managerStep
  simp only [h1, h2, if_false, false_and]
  split <;> rfl

theorem putFinish_rejected_keeps (env : Env) (w : World) (old : String)
    (p : Option Reply × Draft) (h : (putFinish env w old p).1 ≠ Reply.ok) :
    (putFinish env w old p).2.tasks = w.tasks
      ∧ (putFinish env w old p).2.sent = w.sent
      ∧ (putFinish env w old p).2.users = w.users := by
  obtain ⟨o, st⟩ := p
  cases o with
  | some r => exact ⟨rfl, rfl, rfl⟩
  | none =>
    by_cases hc : st.invalid = true ∨ env.saveOk = false
    · simp [putFinish, hc]
    · simp [putFinish, hc] at h

/-- The update handler changes the store and emits events only when it replies 200. -/
theorem putTask_rejected_keeps (env : Env) (w : World) (requester : User) (id : String)
    (body : Body) (h : (putTask env w requester id body).1 ≠ Reply.ok) :
    (putTask env w requester id body).2.tasks = w.tasks
      ∧ (putTask env w requester id body).2.sent = w.sent
      ∧ (putTask env w requester id body).2.users = w.users := by
  unfold putTask at h ⊢
  cases hfind : findTask w.tasks id with
  | none => exact ⟨rfl, rfl, rfl⟩
  | some task =>
    simp only [hfind] at h ⊢
    exact putFinish_rejected_keeps _ _ _ _ h

/-- C6: a `manager` whose request proposes the manager's own id as `assignedTo` is answered 400
`Managers cannot assign tasks to themselves`, on creation and on the update of any existing
task; creation leaves the world as it was (no task is created), and the update leaves the task
store as it was. -/
theorem C6_self_assignment_rejected (env : Env) (w : World) (requester : User) (body : Body)
    (hrole : requester.role = Role.manager)
    (hid : requester.id ≠ "")
    (hself : body.assignedTo = JVal.str requester.id) :
    postTask env w requester body = (Reply.selfAssignment, w)
      ∧ (∀ id task, findTask w.tasks id = some task →
          (putTask env w requester id body).1 = Reply.selfAssignment
            ∧ (putTask env w requester id body).2.tasks = w.tasks)
      ∧ Reply.selfAssignment.code = 400 := by
  refine ⟨?_, ?_, rfl⟩
  · simp [postTask, isManager, hrole, hself, postAssignee, hid]
  · intro id task hfind
    have hreply : (putTask env w requester id body).1 = Reply.selfAssignment := by
      rw [putTask_manager_eq env w requester id body task hfind hrole]
      have hstep : ∀ st : Draft,
          managerStep env w.users requester body Field.assignedTo st
            = (some Reply.selfAssignment, st) := by
        intro st
        simp [managerStep, Body.get, hself, strictEq, Task.get, putAssignee, hid]
      unfold updateFields
      rw [managerLoop_cons_none (managerStep_plain _ _ _ _ _ _ (by decide) (by decide)),
        managerLoop_cons_none (managerStep_plain _ _ _ _ _ _ (by decide) (by decide)),
        managerLoop_cons_none (managerStep_plain _ _ _ _ _ _ (by decide) (by decide)),
        managerLoop_cons_some (r := Reply.selfAssignment) (by rw [hstep]), hstep, putFinish_some]
    exact ⟨hreply, (putTask_rejected_keeps env w requester id body (by rw [hreply]; decide)).1⟩

/-- C6, at a concrete request on the demo world. -/
theorem C6_self_assignment_rejected_witness :
    postTask demoEnv demoWorld mgrA
        { Body.empty with title := .str "Mine", assignedTo := .str "m1" }
        = (Reply.selfAssignment, demoWorld)
      ∧ (putTask demoEnv demoWorld mgrA "t1"
          { Body.empty with title := .str "Mine", assignedTo := .str "m1" }).1
          = Reply.selfAssignment
      ∧ (putTask demoEnv demoWorld mgrA "t1"
          { Body.empty with title := .str "Mine", assignedTo := .str "m1" }).2.tasks
          = demoWorld.tasks
      ∧ Reply.selfAssignment.code = 400 :=
  ⟨(C6_self_assignment_rejected demoEnv demoWorld mgrA
      { Body.empty with title := .str "Mine", assignedTo := .str "m1" }
      (by decide) (by decide) (by decide)).1,
    ((C6_self_assignment_rejected demoEnv demoWorld mgrA
      { Body.empty with title := .str "Mine", assignedTo := .str "m1" }
      (by decide) (by decide) (by decide)).2.1 "t1" demoTask (by decide)).1,
    ((C6_self_assignment_rejected demoEnv demoWorld mgrA
      { Body.empty with title := .str "Mine", assignedTo := .str "m1" }
      (by decide) (by decide) (by decide)).2.1 "t1" demoTask (by decide)).2,
    rfl⟩

/-! ## What a successful update stores -/

/-- An id that the assignee block lets through: not the requester, and the id of an identity
of the directory that is not a manager. -/
def Assignable (users : List User) (requester : User) (s : String) : Prop :=
  s ≠ "" ∧ s ≠ requester.id ∧ ∃ u, findUser users s = some u ∧ u.role ≠ Role.manager

theorem putAssignee_none_str {users : List User} {requester : User} {s : String}
    (hs : s ≠ "") (h : putAssignee users requester (JVal.str s) = none) :
    Assignable users requester s := by
  unfold putAssignee at h
  simp only [hs, if_false] at h
  by_cases hself : s = requester.id
  · simp [hself] at h
  · simp only [hself, if_false] at h
    cases hu : findUser users s with
    | none => simp [hu] at h
    | some u =>
      simp only [hu] at h
      by_cases hm : u.role = Role.manager
      · simp [hm] at h
      · exact ⟨hs, hself, u, hu, hm⟩

theorem postAssignee_none {users : List User} {requester : User} {v : JVal}
    (h : postAssignee users requester v = none) :
    ∃ s, v = JVal.str s ∧ Assignable users requester s := by
  cases v with
  | undefined => simp [postAssignee] at h
  | null => simp [postAssignee] at h
  | str s =>
    unfold postAssignee at h
    by_cases hs : s = ""
    · simp [hs] at h
    · simp only [hs, if_false] at h
      by_cases hself : s = requester.id
      · simp [hself] at h
      · simp only [hself, if_false] at h
        cases hu : findUser users s with
        | none => simp [hu] at h
        | some u =>
          simp only [hu] at h
          by_cases hm : u.role = Role.manager
          · simp [hm] at h
          · exact ⟨s, rfl, hs, hself, u, hu, hm⟩

/-- What an assignment that validates leaves alone, and what it stores in `assignedTo`. -/
theorem Task.assign_some {env : Env} {t t1 : Task} {f : Field} {v : JVal}
    (h : t.assign env f v = some t1) :
    t1.id = t.id ∧ t1.createdBy = t.createdBy
      ∧ (f ≠ Field.assignedTo → t1.assignedTo = t.assignedTo)
      ∧ (f = Field.assignedTo → v = JVal.str t1.assignedTo ∧ t1.assignedTo ≠ "") := by
  cases f with
  | title =>
    cases v <;> simp [Task.assign] at h
    obtain ⟨_, rfl⟩ := h
    simp
  | description =>
    cases v <;> simp [Task.assign] at h <;> subst h <;> simp
  | status =>
    cases v <;> simp [Task.assign] at h
    obtain ⟨_, rfl⟩ := h
    simp
  | assignedTo =>
    cases v <;> simp [Task.assign] at h
    obtain ⟨hs, rfl⟩ := h
    simp [hs]
  | priority =>
    cases v <;> simp [Task.assign] at h
    obtain ⟨_, rfl⟩ := h
    simp
  | dueDate =>
    cases v with
    | undefined => simp [Task.assign] at h; subst h; simp
    | null => simp [Task.assign] at h; subst h; simp
    | str s =>
      simp only [Task.assign] at h
      by_cases hs : s = ""
      · simp [hs] at h; subst h; simp
      · simp only [hs, if_false] at h
        cases hp : env.parseDate s with
        | none => simp [hp] at h
        | some d => simp [hp] at h; subst h; simp

/-- The predicate the permission block keeps on the draft of the task `task`. -/
def DraftOk (users : List User) (requester : User) (task : Task) (st : Draft) : Prop :=
  st.doc.id = task.id ∧ st.doc.createdBy = task.createdBy
    ∧ (st.invalid = true ∨ st.doc.assignedTo = task.assignedTo
        ∨ Assignable users requester st.doc.assignedTo)

theorem Draft.set_ok {env : Env} {users : List User} {requester : User} {task : Task}
    {st : Draft} (log : List Activity) (f : Field) (v : JVal)
    (hst : DraftOk users requester task st)
    (hv : f = Field.assignedTo → putAssignee users requester v = none) :
    DraftOk users requester task (st.set env log f v) := by
  obtain ⟨h1, h2, h3⟩ := hst
  unfold Draft.set
  cases ha : st.doc.assign env f v with
  | none => exact ⟨h1, h2, Or.inl rfl⟩
  | some doc =>
    obtain ⟨a1, a2, a3, a4⟩ := Task.assign_some ha
    refine ⟨a1.trans h1, a2.trans h2, ?_⟩
    by_cases hf : f = Field.assignedTo
    · obtain ⟨hv1, hv2⟩ := a4 hf
      right; right
      show Assignable users requester doc.assignedTo
      have := hv hf
      rw [hv1] at this
      exact putAssignee_none_str hv2 this
    · rcases h3 with h3 | h3 | h3
      · exact Or.inl h3
      · right; left
        show doc.assignedTo = task.assignedTo
        rw [a3 hf]; exact h3
      · right; right
        show Assignable users requester doc.assignedTo
        rw [a3 hf]; exact h3

theorem managerStep_ok {env : Env} {users : List User} {requester : User} {body : Body}
    {task : Task} {f : Field} {st : Draft}
    (hst : DraftOk users requester task st) :
    DraftOk users requester task (managerStep env users requester body f st).2 := by
  unfold managerStep
  simp only
  split
  · exact hst
  · cases hc : (if f = Field.assignedTo then putAssignee users requester (body.get f) else none) with
    | some r => exact hst
    | none =>
      simp only
      split
      · exact hst
      · apply Draft.set_ok _ _ _ hst
        intro hf
        simpa [hf] using hc

theorem userBranch_ok {env : Env} {users : List User} {requester : User} {body : Body}
    {task : Task} {st : Draft}
    (hst : DraftOk users requester task st) :
    DraftOk users requester task (userBranch env requester body st).2 := by
  unfold userBranch
  split
  · exact hst
  · split
    · split
      · exact Draft.set_ok _ _ _ hst (by intro hf; cases hf)
      · exact hst
    · exact hst

theorem managerLoop_ok {env : Env} {users : List User} {requester : User} {body : Body}
    {task : Task} (fs : List Field) :
    ∀ st : Draft, DraftOk users requester task st →
      DraftOk users requester task (managerLoop env users requester body fs st).2 := by
  induction fs with
  | nil => intro st hst; exact hst
  | cons f fs ih =>
    intro st hst
    cases hstep : (managerStep env users requester body f st).1 with
    | none =>
      rw [managerLoop_cons_none hstep]
      exact ih _ (managerStep_ok hst)
    | some r =>
      rw [managerLoop_cons_some hstep]
      exact managerStep_ok hst

/-- A reply 200 of the update handler: the task was found, and the store holds the other
tasks as before and, for the task, a document with the same id and creator whose assignee is
the old one or an id the assignee block let through. -/
theorem putTask_ok {env : Env} {w : World} {requester : User} {id : String} {body : Body}
    (h : (putTask env w requester id body).1 = Reply.ok) :
    ∃ task doc, findTask w.tasks id = some task
      ∧ (putTask env w requester id body).2.tasks = saveTask w.tasks doc
      ∧ (putTask env w requester id body).2.users = w.users
      ∧ doc.id = task.id ∧ doc.createdBy = task.createdBy
      ∧ (doc.assignedTo = task.assignedTo ∨ Assignable w.users requester doc.assignedTo) := by
  unfold putTask at h ⊢
  cases hfind : findTask w.tasks id with
  | none => simp [hfind] at h
  | some task =>
    simp only [hfind] at h ⊢
    have hok : DraftOk w.users requester task
        (if requester.role = Role.user
          then userBranch env requester body { doc := task, invalid := false, log := w.log }
          else managerLoop env w.users requester body updateFields
            { doc := task, invalid := false, log := w.log }).2 := by
      have h0 : DraftOk w.users requester task { doc := task, invalid := false, log := w.log } :=
        ⟨rfl, rfl, Or.inr (Or.inl rfl)⟩
      split
      · exact userBranch_ok h0
      · exact managerLoop_ok _ _ h0
    generalize (if requester.role = Role.user
          then userBranch env requester body { doc := task, invalid := false, log := w.log }
          else managerLoop env w.users requester body updateFields
            { doc := task, invalid := false, log := w.log }) = p at h hok ⊢
    obtain ⟨o, st⟩ := p
    cases o with
    | some r =>
      exact ⟨task, task, rfl, (saveTask_found hfind).symm, rfl, rfl, rfl, Or.inl rfl⟩
    | none =>
      by_cases hc : st.invalid = true ∨ env.saveOk = false
      · simp [putFinish, hc] at h
      · obtain ⟨h1, h2, h3⟩ := hok
        push_neg at hc
        refine ⟨task, st.doc, rfl, ?_, ?_, h1, h2, ?_⟩
        · simp [putFinish, hc]
        · simp [putFinish, hc]
        · rcases h3 with h3 | h3
          · exact absurd h3 hc.1
          · exact h3

/-! ## What a successful creation stores -/

theorem newTask_some {env : Env} {requester : User} {title description assignedTo priority
    dueDate : JVal} {task : Task}
    (h : newTask env requester title description assignedTo priority dueDate = some task) :
    task.createdBy = requester.id ∧ assignedTo = JVal.str task.assignedTo := by
  unfold newTask at h
  simp only at h
  split at h
  · exact absurd h (by simp)
  · rename_i t1 h1
    split at h
    · exact absurd h (by simp)
    · rename_i t2 h2
      split at h
      · exact absurd h (by simp)
      · rename_i t3 h3
        split at h
        · exact absurd h (by simp)
        · rename_i t4 h4
          have a1 := Task.assign_some h1
          have a2 : t2.createdBy = t1.createdBy := by
            split at h2
            · injection h2 with h2; rw [h2]
            · exact (Task.assign_some h2).2.1
          have a3 := Task.assign_some h3
          have a4 := Task.assign_some h4
          have a5 : task.createdBy = t4.createdBy ∧ task.assignedTo = t4.assignedTo := by
            split at h
            · injection h with h; rw [h]; exact ⟨rfl, rfl⟩
            · exact ⟨(Task.assign_some h).2.1, (Task.assign_some h).2.2.1 (by decide)⟩
          refine ⟨?_, ?_⟩
          · rw [a5.1, a4.2.1, a3.2.1, a2, a1.2.1]
          · rw [a5.2, a4.2.2.1 (by decide)]
            exact (a3.2.2.2 rfl).1

theorem postAssignee_ne_created {users : List User} {requester : User} (v : JVal) :
    postAssignee users requester v ≠ some Reply.created := by
  intro h
  cases v with
  | undefined => simp [postAssignee] at h
  | null => simp [postAssignee] at h
  | str s =>
    simp only [postAssignee] at h
    by_cases hs : s = ""
    · simp [hs] at h
    · by_cases hself : s = requester.id
      · subst hself
        simp [hs] at h
      · simp only [hs, hself, if_false] at h
        cases hu : findUser users s with
        | none => simp [hu] at h
        | some u => by_cases hr : u.role = Role.manager <;> simp [hu, hr] at h

/-- A reply 201 of the creation handler: the requester is a manager, and the store holds the
tasks of before and one new task, created by the requester and assigned to an id the assignee
block let through. -/
theorem postTask_created {env : Env} {w : World} {requester : User} {body : Body}
    (h : (postTask env w requester body).1 = Reply.created) :
    ∃ task, (postTask env w requester body).2.tasks = w.tasks ++ [task]
      ∧ (postTask env w requester body).2.users = w.users
      ∧ requester.role = Role.manager
      ∧ task.createdBy = requester.id
      ∧ Assignable w.users requester task.assignedTo := by
  unfold postTask at h ⊢
  cases hm : isManager requester with
  | false => simp [hm] at h
  | true =>
    simp only [hm, Bool.true_eq_false, if_false] at h ⊢
    cases ha : postAssignee w.users requester body.assignedTo with
    | some r =>
      simp only [ha] at h
      exact absurd (h ▸ ha) (postAssignee_ne_created _)
    | none =>
      simp only [ha] at h ⊢
      by_cases hd : dueDateRejected env body.dueDate = true
      · simp [hd] at h
      · simp only [hd] at h ⊢
        cases hn : newTask env requester body.title body.description body.assignedTo
            (if body.priority.truthy = true then body.priority else JVal.str "medium")
            body.dueDate with
        | none => simp [hn] at h
        | some task =>
          simp only [hn] at h ⊢
          by_cases hsv : env.saveOk = false
          · simp [hsv] at h
          · simp only [hsv, if_false]
            obtain ⟨s, hs, hassign⟩ := postAssignee_none ha
            obtain ⟨n1, n2⟩ := newTask_some hn
            have hst : s = task.assignedTo := by
              rw [hs] at n2; injection n2
            refine ⟨task, rfl, rfl, ?_, n1, hst ▸ hassign⟩
            simpa [isManager] using hm

/-! ## Invariants of the task store -/

/-- Invariant I1 on a world: the `assignedTo` of every stored task is the id of an identity of
the directory whose role is `user`. -/
def I1 (w : World) : Prop :=
  ∀ t ∈ w.tasks, (findUser w.users t.assignedTo).map User.role = some Role.user

/-- Invariant I2 on a world: no stored task is assigned to its creator. -/
def I2 (w : World) : Prop :=
  ∀ t ∈ w.tasks, t.createdBy ≠ t.assignedTo

/-- The creator of every stored task is an identity of the directory whose role is
`manager`. -/
def CreatorsAreManagers (w : World) : Prop :=
  ∀ t ∈ w.tasks, (findUser w.users t.createdBy).map User.role = some Role.manager

instance (w : World) : Decidable (I1 w) := by unfold I1; infer_instance

instance (w : World) : Decidable (I2 w) := by unfold I2; infer_instance

instance (w : World) : Decidable (CreatorsAreManagers w) := by
  unfold CreatorsAreManagers; infer_instance

theorem Assignable.role_user {users : List User} {requester : User} {s : String}
    (h : Assignable users requester s) :
    (findUser users s).map User.role = some Role.user := by
  obtain ⟨_, _, u, hu, hr⟩ := h
  rw [hu]
  cases hrole : u.role with
  | manager => exact absurd hrole hr
  | user => simp [hrole]

/-- C7: invariant I1 is kept.  From a world in which the assignee of every stored task is an
identity of role `user`, every creation that is answered 201 and every update that is answered
200, for every requester and every body (a body whose `assignedTo` is `null` or the empty
string among them), leads to a world in which the assignee of every stored task is still an
identity of the directory of role `user`. -/
theorem C7_assignee_role_user_is_kept (env : Env) (w : World) (requester : User) (id : String)
    (body : Body) (hI1 : I1 w) :
    ((postTask env w requester body).1 = Reply.created → I1 (postTask env w requester body).2)
      ∧ ((putTask env w requester id body).1 = Reply.ok
          → I1 (putTask env w requester id body).2) := by
  constructor
  · intro h
    obtain ⟨task, ht, hu, _, _, hassign⟩ := postTask_created h
    intro t hmem
    rw [ht] at hmem
    rw [hu]
    rcases List.mem_append.mp hmem with h1 | h1
    · exact hI1 t h1
    · rw [List.mem_singleton.mp h1]
      exact hassign.role_user
  · intro h
    obtain ⟨task, doc, hfind, ht, hu, _, _, hassign⟩ := putTask_ok h
    intro t hmem
    rw [ht] at hmem
    rw [hu]
    rcases mem_saveTask hmem with h1 | h1
    · exact hI1 t h1
    · rw [h1]
      rcases hassign with h2 | h2
      · rw [h2]
        exact hI1 task (findTask_mem hfind)
      · exact h2.role_user

/-- C7, at a concrete request on the demo world. -/
theorem C7_assignee_role_user_is_kept_witness :
    I1 demoWorld
      ∧ (postTask demoEnv demoWorld mgrA
          { Body.empty with title := .str "Review", assignedTo := .str "u2" }).1 = Reply.created
      ∧ I1 (postTask demoEnv demoWorld mgrA
          { Body.empty with title := .str "Review", assignedTo := .str "u2" }).2
      ∧ (putTask demoEnv demoWorld mgrA "t1" { Body.empty with assignedTo := .str "u2" }).1
          = Reply.ok
      ∧ I1 (putTask demoEnv demoWorld mgrA "t1" { Body.empty with assignedTo := .str "u2" }).2
      ∧ (putTask demoEnv demoWorld mgrA "t1" { Body.empty with assignedTo := .null }).1
          ≠ Reply.ok :=
  ⟨by decide, by decide,
    (C7_assignee_role_user_is_kept demoEnv demoWorld mgrA "t1"
      { Body.empty with title := .str "Review", assignedTo := .str "u2" } (by decide)).1
      (by decide),
    by decide,
    (C7_assignee_role_user_is_kept demoEnv demoWorld mgrA "t1"
      { Body.empty with assignedTo := .str "u2" } (by decide)).2 (by decide),
    by decide⟩

/-- C8: invariant I2 is kept.  In a world where no stored task is assigned to its creator and
every creator is a manager of the directory, every creation that is answered 201 and every
update that is answered 200, by any requester (the task's creator or another manager, also
one who proposes the creator as the new assignee) and for every body, leads to a world in which
no stored task is assigned to its creator; the task a creation adds has an assignee other than
its creator. -/
theorem C8_creator_is_never_assignee (env : Env) (w : World) (requester : User) (id : String)
    (body : Body) (hI2 : I2 w) (hmgr : CreatorsAreManagers w) :
    ((postTask env w requester body).1 = Reply.created → I2 (postTask env w requester body).2)
      ∧ ((putTask env w requester id body).1 = Reply.ok
          → I2 (putTask env w requester id body).2) := by
  constructor
  · intro h
    obtain ⟨task, ht, _, _, hc, hassign⟩ := postTask_created h
    intro t hmem
    rw [ht] at hmem
    rcases List.mem_append.mp hmem with h1 | h1
    · exact hI2 t h1
    · rw [List.mem_singleton.mp h1, hc]
      exact Ne.symm hassign.2.1
  · intro h
    obtain ⟨task, doc, hfind, ht, _, _, hc, hassign⟩ := putTask_ok h
    intro t hmem
    rw [ht] at hmem
    rcases mem_saveTask hmem with h1 | h1
    · exact hI2 t h1
    · rw [h1, hc]
      rcases hassign with h2 | h2
      · rw [h2]
        exact hI2 task (findTask_mem hfind)
      · intro heq
        have hu := h2.role_user
        have hm := hmgr task (findTask_mem hfind)
        rw [← heq, hm] at hu
        cases hu

/-- C8, at a concrete request on the demo world. -/
theorem C8_creator_is_never_assignee_witness :
    I2 demoWorld ∧ CreatorsAreManagers demoWorld
      ∧ (postTask demoEnv demoWorld mgrA
          { Body.empty with title := .str "Review", assignedTo := .str "u2" }).1 = Reply.created
      ∧ I2 (postTask demoEnv demoWorld mgrA
          { Body.empty with title := .str "Review", assignedTo := .str "u2" }).2
      ∧ (putTask demoEnv demoWorld mgrB "t1" { Body.empty with assignedTo := .str "u2" }).1
          = Reply.ok
      ∧ I2 (putTask demoEnv demoWorld mgrB "t1" { Body.empty with assignedTo := .str "u2" }).2
      ∧ (putTask demoEnv demoWorld mgrB "t1" { Body.empty with assignedTo := .str "m1" }).1
          = Reply.assigneeIsManager :=
  ⟨by decide, by decide, by decide,
    (C8_creator_is_never_assignee demoEnv demoWorld mgrA "t1"
      { Body.empty with title := .str "Review", assignedTo := .str "u2" }
      (by decide) (by decide)).1 (by decide),
    by decide,
    (C8_creator_is_never_assignee demoEnv demoWorld mgrB "t1"
      { Body.empty with assignedTo := .str "u2" } (by decide) (by decide)).2 (by decide),
    by decide⟩

/-! ## The due date block -/

theorem managerLoop_single (env : Env) (users : List User) (requester : User) (body : Body)
    (f : Field) (st : Draft) :
    managerLoop env users requester body [f] st = managerStep env users requester body f st := by
  rw [managerLoop]
  generalize managerStep env users requester body f st = p
  obtain ⟨o, st1⟩ := p
  cases o <;> rfl

/-- The turn for `assignedTo` has no `return` when the assignee block lets the value through. -/
theorem managerStep_assignedTo_passes (env : Env) (users : List User) (requester : User)
    (body : Body) (st : Draft) (h : putAssignee users requester body.assignedTo = none) :
    (managerStep env users requester body Field.assignedTo st).1 = none := by
  unfold managerStep
  simp only [Body.get, h, if_true]
  split
  · rfl
  · simp

/-- A string is never strictly equal to the value of the `dueDate` path. -/
theorem strictEq_dueDate (s : String) (t : Task) :
    strictEq (JVal.str s) (t.get Field.dueDate) = false := by
  cases h : t.dueDate <;> simp [Task.get, h, strictEq]

/-- The turn for `dueDate` on a date string: a `return` with 400 when the instant is before
the start of today, the assignment otherwise. -/
theorem managerStep_dueDate (env : Env) (users : List User) (requester : User) (body : Body)
    (st : Draft) (s : String) (d : Int) (hdue : body.dueDate = JVal.str s) (hs : s ≠ "")
    (hparse : env.parseDate s = some d) :
    (managerStep env users requester body Field.dueDate st).1
      = if d < env.today then some Reply.dueDateInPast else none := by
  unfold managerStep
  simp only [Body.get, hdue, strictEq_dueDate, dueDateRejected, hs, hparse]
  by_cases hd : d < env.today <;> simp [hd]

/-- When the assignee block lets the body through, the loop over `updateFields` ends in the
turn for `dueDate`. -/
theorem managerLoop_reaches_dueDate (env : Env) (users : List User) (requester : User)
    (body : Body) (st : Draft) (h : putAssignee users requester body.assignedTo = none) :
    ∃ st5, managerLoop env users requester body updateFields st
      = managerStep env users requester body Field.dueDate st5 := by
  unfold updateFields
  rw [managerLoop_cons_none (managerStep_plain _ _ _ _ _ _ (by decide) (by decide)),
    managerLoop_cons_none (managerStep_plain _ _ _ _ _ _ (by decide) (by decide)),
    managerLoop_cons_none (managerStep_plain _ _ _ _ _ _ (by decide) (by decide)),
    managerLoop_cons_none (managerStep_assignedTo_passes _ _ _ _ _ h),
    managerLoop_cons_none (managerStep_plain _ _ _ _ _ _ (by decide) (by decide))]
  exact ⟨_, managerLoop_single _ _ _ _ _ _⟩

theorem putFinish_reply_of_some (env : Env) (w : World) (old : String)
    (p : Option Reply × Draft) (r : Reply) (h : p.1 = some r) :
    (putFinish env w old p).1 = r := by
  obtain ⟨o, st⟩ := p
  simp only at h
  subst h
  rfl

/-- C9: with dates as integer instants and `today` the start of the current day, a proposed
`dueDate` whose string parses to the instant `d` is answered 400 `Due date cannot be less than
today` exactly when `d` is strictly before the start of today, on creation by a manager and on
the update of an existing task by a manager, for a body that the assignee block lets through.
A date on today (`d = today`) is therefore accepted, a date on yesterday rejected, and no
instant after today is rejected, however late. -/
theorem C9_due_date_rejected_iff_before_today (env : Env) (w : World) (requester : User)
    (body : Body) (s : String) (d : Int)
    (hrole : requester.role = Role.manager)
    (hdue : body.dueDate = JVal.str s) (hs : s ≠ "")
    (hparse : env.parseDate s = some d) :
    (postAssignee w.users requester body.assignedTo = none →
        ((postTask env w requester body).1 = Reply.dueDateInPast ↔ d < env.today))
      ∧ (∀ id task, findTask w.tasks id = some task →
          putAssignee w.users requester body.assignedTo = none →
          ((putTask env w requester id body).1 = Reply.dueDateInPast ↔ d < env.today)) := by
  constructor
  · intro ha
    have hrej : dueDateRejected env body.dueDate = decide (d < env.today) := by
      simp [dueDateRejected, hdue, hs, hparse]
    unfold postTask
    simp only [isManager, hrole, ha, hrej, decide_True, Bool.true_eq_false, if_false,
      decide_eq_true_eq]
    by_cases hd : d < env.today
    · simp [hd]
    · simp only [hd, if_false, iff_false]
      split
      · simp
      · split <;> simp
  · intro id task hfind ha
    rw [putTask_manager_eq env w requester id body task hfind hrole]
    obtain ⟨st5, h5⟩ := managerLoop_reaches_dueDate env w.users requester body
      { doc := task, invalid := false, log := w.log } ha
    rw [h5]
    have hstep := managerStep_dueDate env w.users requester body st5 s d hdue hs hparse
    by_cases hd : d < env.today
    · simp only [hd, if_true] at hstep
      simp only [hd, iff_true]
      exact putFinish_reply_of_some _ _ _ _ _ hstep
    · simp only [hd, if_false] at hstep
      simp only [hd, iff_false]
      rcases putFinish_of_none env w task.assignedTo _ hstep with h1 | h1 <;> rw [h1] <;> decide

/-- C9, at a concrete request on the demo world. -/
theorem C9_due_date_rejected_iff_before_today_witness :
    ((postTask demoEnv demoWorld mgrA
          { Body.empty with title := .str "Review", assignedTo := .str "u2",
                            dueDate := .str "yesterday" }).1 = Reply.dueDateInPast
        ↔ (99 : Int) < demoEnv.today)
      ∧ ((putTask demoEnv demoWorld mgrA "t1"
          { Body.empty with dueDate := .str "today" }).1 = Reply.dueDateInPast
        ↔ (100 : Int) < demoEnv.today) :=
  ⟨(C9_due_date_rejected_iff_before_today demoEnv demoWorld mgrA
      { Body.empty with title := .str "Review", assignedTo := .str "u2",
                        dueDate := .str "yesterday" }
      "yesterday" 99 (by decide) (by decide) (by decide) (by decide)).1 (by decide),
    (C9_due_date_rejected_iff_before_today demoEnv demoWorld mgrA
      { Body.empty with dueDate := .str "today" }
      "today" 100 (by decide) (by decide) (by decide) (by decide)).2 "t1" demoTask
      (by decide) (by decide)⟩

/-! ## Setting `status` to its current value -/

/-- With no task field in the body but `status`, equal to the stored one, the loop over
`updateFields` assigns nothing and records nothing. -/
theorem managerLoop_status_noop (env : Env) (users : List User) (requester : User)
    (body : Body) (st : Draft)
    (hstatus : body.status = JVal.str st.doc.status)
    (h1 : body.title = JVal.undefined) (h2 : body.description = JVal.undefined)
    (h3 : body.assignedTo = JVal.undefined) (h4 : body.priority = JVal.undefined)
    (h5 : body.dueDate = JVal.undefined) :
    managerLoop env users requester body updateFields st = (none, st) := by
  simp [updateFields, managerLoop, managerStep, Body.get, Task.get, strictEq, hstatus, h1, h2,
    h3, h4, h5]

/-- C10: for an existing task and a permitted requester (the `user`-role assignee, or a
manager), an update whose only task field is `status`, set to the status the task has, is
answered 200 when the store write goes through; the task store and the audit log after the
request are those before it: no field of the task changes and no record is appended. -/
theorem C10_same_status_is_a_noop (env : Env) (w : World) (requester : User) (id : String)
    (body : Body) (task : Task)
    (hfind : findTask w.tasks id = some task)
    (hperm : requester.role = Role.user → task.assignedTo = requester.id)
    (hsave : env.saveOk = true)
    (hcur : task.status ≠ "")
    (hstatus : body.status = JVal.str task.status)
    (h1 : body.title = JVal.undefined) (h2 : body.description = JVal.undefined)
    (h3 : body.assignedTo = JVal.undefined) (h4 : body.priority = JVal.undefined)
    (h5 : body.dueDate = JVal.undefined) :
    (putTask env w requester id body).1 = Reply.ok
      ∧ Reply.ok.code = 200
      ∧ (putTask env w requester id body).2.tasks = w.tasks
      ∧ (putTask env w requester id body).2.log = w.log
      ∧ findTask (putTask env w requester id body).2.tasks id = some task := by
  have key : putTask env w requester id body
      = (Reply.ok, { users := w.users, tasks := w.tasks, log := w.log,
                     sent := w.sent ++ putEmits env task.assignedTo task }) := by
    cases hrole : requester.role with
    | user =>
      rw [putTask_user_eq env w requester id body task hfind hrole]
      simp [userBranch, hperm hrole, hstatus, JVal.truthy, hcur, strictEq, putFinish, hsave,
        saveTask_found hfind]
    | manager =>
      rw [putTask_manager_eq env w requester id body task hfind hrole,
        managerLoop_status_noop env w.users requester body _ hstatus h1 h2 h3 h4 h5]
      simp [putFinish, hsave, saveTask_found hfind]
  rw [key]
  exact ⟨rfl, rfl, rfl, rfl, hfind⟩

/-- C10, at a concrete request on the demo world. -/
theorem C10_same_status_is_a_noop_witness :
    (putTask demoEnv demoWorld usrA "t1"
        { Body.empty with status := .str "pending", comment := .str "still pending" }).1
        = Reply.ok
      ∧ Reply.ok.code = 200
      ∧ (putTask demoEnv demoWorld usrA "t1"
          { Body.empty with status := .str "pending", comment := .str "still pending" }).2.tasks
          = demoWorld.tasks
      ∧ (putTask demoEnv demoWorld usrA "t1"
          { Body.empty with status := .str "pending", comment := .str "still pending" }).2.log
          = demoWorld.log
      ∧ findTask (putTask demoEnv demoWorld usrA "t1"
          { Body.empty with status := .str "pending", comment := .str "still pending" }).2.tasks
          "t1" = some demoTask :=
  C10_same_status_is_a_noop demoEnv demoWorld usrA "t1"
    { Body.empty with status := .str "pending", comment := .str "still pending" } demoTask
    (by decide) (by decide) (by decide) (by decide) (by decide) (by decide) (by decide)
    (by decide) (by decide) (by decide)

/-! ## The audit trail of an update -/

/-- The demo world with a store whose writes fail. -/
def failingStoreEnv : Env :=
  { demoEnv with saveOk := false }

/-- C11 (code defect, evaluated): the creator `m1` sends the body of the edit form with the
assignee the task already has, `assignedTo: "u1"`.  The string is compared with the stored
object id by `!==`, so the field counts as changed: the handler replies 200 and appends one
`updated` record for `assignedTo` although no stored value of the task differs after the
request. -/
theorem C11_entry_without_change :
    putTask demoEnv demoWorld mgrA "t1" { Body.empty with assignedTo := .str "u1" }
      = (Reply.ok,
         { users := demoWorld.users
           tasks := [demoTask]
           log := [⟨"t1", "m1", .updated, some .assignedTo, .oid "u1", .str "u1", .null⟩]
           sent := [⟨"u1", .taskUpdated⟩, ⟨"m1", .taskUpdated⟩] }) := by
  decide

/-- C14 (code defect, evaluated): the creator `m1` changes the `status` of the pending task
`t1` to `completed`.  The change is accepted, and the record the loop over `updateFields`
appends for the field `status` has the action `updated`, not `status_changed`. -/
theorem C14_manager_status_change_logged_as_updated :
    putTask demoEnv demoWorld mgrA "t1" { Body.empty with status := .str "completed" }
      = (Reply.ok,
         { users := demoWorld.users
           tasks := [{ demoTask with status := "completed" }]
           log := [⟨"t1", "m1", .updated, some .status, .str "pending", .str "completed",
                    .null⟩]
           sent := [⟨"u1", .taskUpdated⟩, ⟨"m1", .taskUpdated⟩] }) := by
  decide

/-- C15 (code defect, evaluated): the assignee `u1` changes the status with a comment while
the write of the task store fails.  The request is answered 400, the store is unchanged and
no event is emitted, but the `status_changed` record is in the audit log: `createActivity`
ran before `task.save()`. -/
theorem C15_entry_written_before_failed_save :
    putTask failingStoreEnv demoWorld usrA "t1"
        { Body.empty with status := .str "completed", comment := .str "done" }
      = (Reply.error,
         { users := demoWorld.users
           tasks := [demoTask]
           log := [⟨"t1", "u1", .status_changed, some .status, .str "pending",
                    .str "completed", .str "done"⟩]
           sent := [] }) := by
  decide

/-- C16: an update that is not answered 200 (the task is not found, access is denied, a user
sends no status, the assignee is the requester, unknown or a manager, the due date is in the
past, or the save throws) leaves the task store as it was, also when earlier fields of the same
request had been assigned to the fetched document: every task of the store after the request
is the task of before, field by field. -/
theorem C16_rejected_update_keeps_store (env : Env) (w : World) (requester : User)
    (id : String) (body : Body)
    (hrej : (putTask env w requester id body).1 ≠ Reply.ok) :
    (putTask env w requester id body).2.tasks = w.tasks
      ∧ ∀ i, findTask (putTask env w requester id body).2.tasks i = findTask w.tasks i := by
  have h := (putTask_rejected_keeps env w requester id body hrej).1
  exact ⟨h, fun i => by rw [h]⟩

/-- C16, at a concrete request on the demo world: the title is assigned to the fetched
document before the self-assignment is rejected, and is not stored. -/
theorem C16_rejected_update_keeps_store_witness :
    (putTask demoEnv demoWorld mgrA "t1"
        { Body.empty with title := .str "Mine", assignedTo := .str "m1" }).1
        = Reply.selfAssignment
      ∧ (putTask demoEnv demoWorld mgrA "t1"
          { Body.empty with title := .str "Mine", assignedTo := .str "m1" }).2.tasks
          = demoWorld.tasks
      ∧ findTask (putTask demoEnv demoWorld mgrA "t1"
          { Body.empty with title := .str "Mine", assignedTo := .str "m1" }).2.tasks "t1"
          = some demoTask :=
  ⟨by decide,
    (C16_rejected_update_keeps_store demoEnv demoWorld mgrA "t1"
      { Body.empty with title := .str "Mine", assignedTo := .str "m1" } (by decide)).1,
    ((C16_rejected_update_keeps_store demoEnv demoWorld mgrA "t1"
      { Body.empty with title := .str "Mine", assignedTo := .str "m1" } (by decide)).2
        "t1").trans (by decide)⟩

/-! ## The events of an update -/

theorem putAssignee_ne_ok (users : List User) (requester : User) (v : JVal) :
    putAssignee users requester v ≠ some Reply.ok := by
  intro h
  cases v with
  | undefined => simp [putAssignee] at h
  | null => simp [putAssignee] at h
  | str s =>
    simp only [putAssignee] at h
    by_cases hs : s = ""
    · simp [hs] at h
    · by_cases hself : s = requester.id
      · simp [hs, hself] at h
      · simp only [hs, hself, if_false] at h
        cases hu : findUser users s with
        | none => simp [hu] at h
        | some u => by_cases hr : u.role = Role.manager <;> simp [hu, hr] at h

theorem userBranch_reply_ne_ok (env : Env) (requester : User) (body : Body) (st : Draft) :
    (userBranch env requester body st).1 ≠ some Reply.ok := by
  unfold userBranch
  split
  · simp
  · split
    · split <;> simp
    · simp

theorem managerStep_reply_ne_ok (env : Env) (users : List User) (requester : User)
    (body : Body) (f : Field) (st : Draft) :
    (managerStep env users requester body f st).1 ≠ some Reply.ok := by
  unfold managerStep
  simp only
  split
  · simp
  · cases hc : (if f = Field.assignedTo then putAssignee users requester (body.get f) else none) with
    | some r =>
      simp only
      intro h
      injection h with h
      subst h
      by_cases hf : f = Field.assignedTo
      · simp only [hf, if_true] at hc
        exact putAssignee_ne_ok _ _ _ hc
      · simp [hf] at hc
    | none =>
      simp only
      split <;> simp

theorem managerLoop_reply_ne_ok (env : Env) (users : List User) (requester : User)
    (body : Body) (fs : List Field) :
    ∀ st : Draft, (managerLoop env users requester body fs st).1 ≠ some Reply.ok := by
  induction fs with
  | nil => intro st; simp [managerLoop]
  | cons f fs ih =>
    intro st
    cases hstep : (managerStep env users requester body f st).1 with
    | none =>
      rw [managerLoop_cons_none hstep]
      exact ih _
    | some r =>
      rw [managerLoop_cons_some hstep, hstep]
      intro h
      exact managerStep_reply_ne_ok env users requester body f st (hstep.trans h)

theorem findTask_saveTask {tasks : List Task} {id : String} {task doc : Task}
    (h : findTask tasks id = some task) (hid : doc.id = id) :
    findTask (saveTask tasks doc) id = some doc := by
  induction tasks with
  | nil => simp [findTask] at h
  | cons x xs ih =>
    unfold findTask at h
    rw [List.find?_cons] at h
    by_cases hx : x.id = id
    · simp [saveTask, hx, hid, findTask]
    · simp only [hx, decide_False] at h
      have hne : ¬ x.id = doc.id := by rw [hid]; exact hx
      simp only [saveTask, hne, if_false]
      unfold findTask
      rw [List.find?_cons]
      simp only [hx, decide_False]
      exact ih h

/-- A reply 200 of the update handler, in full: the world after the request holds the saved
document in place of the fetched one, the log of the permission block and the events of the
save. -/
theorem putTask_ok_world {env : Env} {w : World} {requester : User} {id : String} {body : Body}
    (h : (putTask env w requester id body).1 = Reply.ok) :
    ∃ task st, findTask w.tasks id = some task
      ∧ (if requester.role = Role.user
          then userBranch env requester body { doc := task, invalid := false, log := w.log }
          else managerLoop env w.users requester body updateFields
            { doc := task, invalid := false, log := w.log }) = (none, st)
      ∧ st.invalid = false ∧ env.saveOk = true
      ∧ (putTask env w requester id body).2
        = { users := w.users, tasks := saveTask w.tasks st.doc, log := st.log,
            sent := w.sent ++ putEmits env task.assignedTo st.doc }
      ∧ st.doc.id = task.id ∧ st.doc.createdBy = task.createdBy := by
  unfold putTask at h ⊢
  cases hfind : findTask w.tasks id with
  | none => simp [hfind] at h
  | some task =>
    simp only [hfind] at h ⊢
    have hok : DraftOk w.users requester task
        (if requester.role = Role.user
          then userBranch env requester body { doc := task, invalid := false, log := w.log }
          else managerLoop env w.users requester body updateFields
            { doc := task, invalid := false, log := w.log }).2 := by
      have h0 : DraftOk w.users requester task { doc := task, invalid := false, log := w.log } :=
        ⟨rfl, rfl, Or.inr (Or.inl rfl)⟩
      split
      · exact userBranch_ok h0
      · exact managerLoop_ok _ _ h0
    have hne : (if requester.role = Role.user
          then userBranch env requester body { doc := task, invalid := false, log := w.log }
          else managerLoop env w.users requester body updateFields
            { doc := task, invalid := false, log := w.log }).1 ≠ some Reply.ok := by
      split
      · exact userBranch_reply_ne_ok _ _ _ _
      · exact managerLoop_reply_ne_ok _ _ _ _ _ _
    generalize hp : (if requester.role = Role.user
          then userBranch env requester body { doc := task, invalid := false, log := w.log }
          else managerLoop env w.users requester body updateFields
            { doc := task, invalid := false, log := w.log }) = p at h hok hne ⊢
    obtain ⟨o, st⟩ := p
    cases o with
    | some r =>
      simp only [putFinish] at h
      exact absurd (by rw [h]) hne
    | none =>
      by_cases hc : st.invalid = true ∨ env.saveOk = false
      · simp [putFinish, hc] at h
      · obtain ⟨h1, h2, _⟩ := hok
        have hc1 : st.invalid = false := by
          cases hi : st.invalid with
          | false => rfl
          | true => exact absurd (Or.inl hi) hc
        have hc2 : env.saveOk = true := by
          cases hi : env.saveOk with
          | true => rfl
          | false => exact absurd (Or.inr hi) hc
        refine ⟨task, st, rfl, hp, hc1, hc2, ?_, h1, h2⟩
        simp [putFinish, hc]

/-- C12: for an update answered 200 that changes the assignee of a task from `A` to another
identity `B`, with the socket server registered, the `task-updated` events emitted by the
request go to `B`, `A` and the creator `C` when `C` is not `B` (so to exactly the set
`A, B, C` when `C` is neither), and to `B` and `A` only when `C` is `B`. -/
theorem C12_recipients_when_assignee_changes (env : Env) (w : World) (requester : User)
    (id : String) (body : Body) (task task1 : Task)
    (hfind : findTask w.tasks id = some task)
    (hok : (putTask env w requester id body).1 = Reply.ok)
    (hfind1 : findTask (putTask env w requester id body).2.tasks id = some task1)
    (hchange : task.assignedTo ≠ task1.assignedTo)
    (hsocket : env.socket = true) :
    (task.createdBy ≠ task1.assignedTo →
        (putTask env w requester id body).2.sent
          = w.sent ++ [⟨task1.assignedTo, .taskUpdated⟩, ⟨task.assignedTo, .taskUpdated⟩,
                       ⟨task.createdBy, .taskUpdated⟩])
      ∧ (task.createdBy = task1.assignedTo →
        (putTask env w requester id body).2.sent
          = w.sent ++ [⟨task1.assignedTo, .taskUpdated⟩, ⟨task.assignedTo, .taskUpdated⟩]) := by
  obtain ⟨task0, st, hf0, _, _, _, hw, hid, hcr⟩ := putTask_ok_world hok
  rw [hfind] at hf0
  injection hf0 with hf0
  subst hf0
  have hdoc : task1 = st.doc := by
    rw [hw] at hfind1
    have := @findTask_saveTask w.tasks id task st.doc hfind
      (hid.trans (findTask_id hfind))
    simp only at hfind1
    rw [this] at hfind1
    injection hfind1 with h1
    exact h1.symm
  subst hdoc
  rw [hw]
  constructor
  · intro hc
    simp [putEmits, hsocket, hchange, hcr, hc]
  · intro hc
    simp [putEmits, hsocket, hchange, hcr, hc]

/-- C12, at a concrete request on the demo world: `m1` moves its task from `u1` to `u2`. -/
theorem C12_recipients_when_assignee_changes_witness :
    (putTask demoEnv demoWorld mgrA "t1" { Body.empty with assignedTo := .str "u2" }).2.sent
      = demoWorld.sent
          ++ [⟨"u2", .taskUpdated⟩, ⟨"u1", .taskUpdated⟩, ⟨"m1", .taskUpdated⟩] :=
  (C12_recipients_when_assignee_changes demoEnv demoWorld mgrA "t1"
    { Body.empty with assignedTo := .str "u2" } demoTask { demoTask with assignedTo := "u2" }
    (by decide) (by decide) (by decide) (by decide) (by decide)).1 (by decide)

/-- A world whose only task has its assignee `u1` as creator. -/
def selfAssignedWorld : World :=
  { demoWorld with tasks := [{ demoTask with createdBy := "u1" }] }

/-- C13 (counterexample): for a task whose creator is also its previous assignee `u1`, an
update that moves the task to `u2` is answered 200 and emits `task-updated` to `u2`, to `u1`
as the old assignee and to `u1` again as the creator: the list of recipients holds `u1`
twice. -/
theorem C13_creator_as_old_assignee_notified_twice :
    (putTask demoEnv selfAssignedWorld mgrA "t1"
        { Body.empty with assignedTo := .str "u2" }).1 = Reply.ok
      ∧ (putTask demoEnv selfAssignedWorld mgrA "t1"
          { Body.empty with assignedTo := .str "u2" }).2.sent.map Emit.recipient
          = ["u2", "u1", "u1"]
      ∧ ¬ ((putTask demoEnv selfAssignedWorld mgrA "t1"
          { Body.empty with assignedTo := .str "u2" }).2.sent.map Emit.recipient).Nodup := by
  decide

theorem putTask_emits_distinct (env : Env) (w : World) (requester : User)
    (id : String) (body : Body) (task : Task)
    (hfind : findTask w.tasks id = some task)
    (hok : (putTask env w requester id body).1 = Reply.ok)
    (hI2 : task.createdBy ≠ task.assignedTo) :
    ∃ es : List Emit, (putTask env w requester id body).2.sent = w.sent ++ es
      ∧ (es.map Emit.recipient).Nodup
      ∧ ∀ e ∈ es, e.event = Event.taskUpdated := by
  obtain ⟨task0, st, hf0, _, _, _, hw, _, hcr⟩ := putTask_ok_world hok
  rw [hfind] at hf0
  injection hf0 with hf0
  subst hf0
  refine ⟨putEmits env task.assignedTo st.doc, by rw [hw], ?_, ?_⟩
  · unfold putEmits
    rw [hcr]
    by_cases hs : env.socket = true
    · by_cases h1 : task.assignedTo = st.doc.assignedTo
      · by_cases h2 : task.createdBy = st.doc.assignedTo
        · simp [hs, h1, h2]
        · simp [hs, h1, h2]
          exact fun h => h2 h.symm
      · by_cases h2 : task.createdBy = st.doc.assignedTo
        · simp [hs, h1, h2]
          exact fun h => h1 (h2 ▸ h.symm ▸ h2.symm ▸ rfl)
        · simp [hs, h1, h2]
          exact ⟨⟨fun h => h1 h.symm, fun h => h2 h.symm⟩, fun h => hI2 h.symm⟩
    · simp [hs]
  · intro e he
    unfold putEmits at he
    by_cases hs : env.socket = true
    · simp only [hs, if_true] at he
      simp only [List.mem_append, List.mem_singleton] at he
      rcases he with (he | he) | he
      · rw [he]
      · split at he
        · rw [List.mem_singleton.mp he]
        · cases he
      · split at he
        · rw [List.mem_singleton.mp he]
        · cases he
    · simp [hs] at he

/-- The events a request emitted: those of the world after it that were not in the world
before it. -/
def emitted (w w1 : World) : List Emit :=
  w1.sent.drop w.sent.length

/-- C13 (amended): for an update answered 200 of a task whose creator is not its previous
assignee (invariant I2 on the fetched task), whatever the new assignee is, the events the
request emits are appended to those emitted before, they are `task-updated` events, and their
list of recipients holds no identity twice. -/
theorem C13_recipients_distinct_under_I2 (env : Env) (w : World) (requester : User)
    (id : String) (body : Body) (task : Task)
    (hfind : findTask w.tasks id = some task)
    (hok : (putTask env w requester id body).1 = Reply.ok)
    (hI2 : task.createdBy ≠ task.assignedTo) :
    (putTask env w requester id body).2.sent
        = w.sent ++ emitted w (putTask env w requester id body).2
      ∧ ((emitted w (putTask env w requester id body).2).map Emit.recipient).Nodup
      ∧ ∀ e ∈ emitted w (putTask env w requester id body).2, e.event = Event.taskUpdated := by
  obtain ⟨es, h1, h2, h3⟩ := putTask_emits_distinct env w requester id body task hfind hok hI2
  have he : emitted w (putTask env w requester id body).2 = es := by
    unfold emitted
    rw [h1, List.drop_left]
  rw [he]
  exact ⟨h1, h2, h3⟩

/-- C13 (amended), at a concrete request on the demo world. -/
theorem C13_recipients_distinct_under_I2_witness :
    (putTask demoEnv demoWorld mgrA "t1" { Body.empty with assignedTo := .str "u2" }).2.sent
        = demoWorld.sent
          ++ emitted demoWorld
            (putTask demoEnv demoWorld mgrA "t1" { Body.empty with assignedTo := .str "u2" }).2
      ∧ ((emitted demoWorld
            (putTask demoEnv demoWorld mgrA "t1"
              { Body.empty with assignedTo := .str "u2" }).2).map Emit.recipient).Nodup :=
  ⟨(C13_recipients_distinct_under_I2 demoEnv demoWorld mgrA "t1"
      { Body.empty with assignedTo := .str "u2" } demoTask
      (by decide) (by decide) (by decide)).1,
    (C13_recipients_distinct_under_I2 demoEnv demoWorld mgrA "t1"
      { Body.empty with assignedTo := .str "u2" } demoTask
      (by decide) (by decide) (by decide)).2.1⟩

/-! ## Deletion -/

theorem removeTask_found {tasks : List Task} {id : String} {task : Task}
    (h : findTask tasks id = some task) : removeTask tasks id = tasks.erase task := by
  induction tasks with
  | nil => simp [findTask] at h
  | cons x xs ih =>
    unfold findTask at h
    rw [List.find?_cons] at h
    by_cases hx : x.id = id
    · simp only [hx, decide_True] at h
      injection h with h
      subst h
      simp [removeTask, hx]
    · simp only [hx, decide_False] at h
      have hid : task.id = id := @findTask_id xs id task h
      have hne : x ≠ task := by
        intro heq
        exact hx (heq ▸ hid)
      rw [List.erase_cons_tail (by simpa using hne)]
      simp only [removeTask, hx, if_false]
      rw [ih h]

/-- C17: for a delete request of a manager on an existing task, with the store write going
through, the task is deleted exactly when the requester's id is the task's `createdBy`.
Another manager is answered 403 `You can only delete tasks you created` and the world after
the request is the world before it: the task remains in the store, no audit record is appended
and no event is emitted. -/
theorem C17_delete_only_by_creator (env : Env) (w : World) (requester : User) (id : String)
    (task : Task)
    (hfind : findTask w.tasks id = some task)
    (hrole : requester.role = Role.manager) :
    (env.saveOk = true →
        ((deleteTask env w requester id).1 = Reply.deleted ↔ requester.id = task.createdBy))
      ∧ ((deleteTask env w requester id).1 = Reply.deleted →
          (deleteTask env w requester id).2.tasks = w.tasks.erase task)
      ∧ (requester.id ≠ task.createdBy →
          deleteTask env w requester id = (Reply.notCreator, w)
            ∧ Reply.notCreator.code = 403
            ∧ findTask (deleteTask env w requester id).2.tasks id = some task) := by
  have hm : isManager requester = true := by simp [isManager, hrole]
  refine ⟨?_, ?_, ?_⟩
  · intro hsave
    by_cases hc : task.createdBy = requester.id
    · simp [deleteTask, hm, hfind, hc, hsave]
    · have hc1 : ¬ requester.id = task.createdBy := fun h => hc h.symm
      simp [deleteTask, hm, hfind, hc, hc1]
  · intro hdel
    by_cases hc : task.createdBy = requester.id
    · by_cases hsave : env.saveOk = true
      · simp [deleteTask, hm, hfind, hc, hsave, removeTask_found hfind]
      · simp [deleteTask, hm, hfind, hc, hsave] at hdel
    · simp [deleteTask, hm, hfind, hc] at hdel
  · intro hc
    have hc1 : ¬ task.createdBy = requester.id := fun h => hc h.symm
    have hres : deleteTask env w requester id = (Reply.notCreator, w) := by
      simp [deleteTask, hm, hfind, hc1]
    rw [hres]
    exact ⟨rfl, rfl, hfind⟩

/-- C17, at concrete requests on the demo world: the creator `m1` deletes the task, the manager
`m2` is refused. -/
theorem C17_delete_only_by_creator_witness :
    ((deleteTask demoEnv demoWorld mgrA "t1").1 = Reply.deleted ↔ mgrA.id = demoTask.createdBy)
      ∧ (deleteTask demoEnv demoWorld mgrA "t1").2.tasks = demoWorld.tasks.erase demoTask
      ∧ deleteTask demoEnv demoWorld mgrB "t1" = (Reply.notCreator, demoWorld)
      ∧ Reply.notCreator.code = 403
      ∧ findTask (deleteTask demoEnv demoWorld mgrB "t1").2.tasks "t1" = some demoTask :=
  ⟨(C17_delete_only_by_creator demoEnv demoWorld mgrA "t1" demoTask (by decide) (by decide)).1
      (by decide),
    (C17_delete_only_by_creator demoEnv demoWorld mgrA "t1" demoTask (by decide) (by decide)).2.1
      (by decide),
    (C17_delete_only_by_creator demoEnv demoWorld mgrB "t1" demoTask (by decide) (by decide)).2.2
      (by decide)⟩

/-- C18: a delete request of the manager who created an existing task, with the store write
and the audit write going through and the socket server registered, is answered 200; it
appends exactly one record, of action `deleted` with no field, old value or new value, that
references the task; it removes the task from the store; and it emits exactly one
`task-deleted` event, addressed to the assignee the task had. -/
theorem C18_delete_by_creator (env : Env) (w : World) (requester : User) (id : String)
    (task : Task)
    (hfind : findTask w.tasks id = some task)
    (hrole : requester.role = Role.manager)
    (hcreator : task.createdBy = requester.id)
    (hsave : env.saveOk = true)
    (haudit : env.auditOk ⟨id, requester.id, .deleted, none, .null, .null, .null⟩ = true)
    (hsocket : env.socket = true) :
    deleteTask env w requester id
      = (Reply.deleted,
         { users := w.users
           tasks := w.tasks.erase task
           log := w.log ++ [⟨id, requester.id, .deleted, none, .null, .null, .null⟩]
           sent := w.sent ++ [⟨task.assignedTo, .taskDeleted⟩] }) := by
  have hm : isManager requester = true := by simp [isManager, hrole]
  have hid : task.id = id := findTask_id hfind
  simp [deleteTask, hm, hfind, hcreator, hsave, hsocket, createActivity, orNull, SVal.orNull,
    hid, haudit,
    removeTask_found hfind]

/-- C18, at a concrete request on the demo world. -/
theorem C18_delete_by_creator_witness :
    deleteTask demoEnv demoWorld mgrA "t1"
      = (Reply.deleted,
         { users := demoWorld.users
           tasks := demoWorld.tasks.erase demoTask
           log := demoWorld.log ++ [⟨"t1", mgrA.id, .deleted, none, .null, .null, .null⟩]
           sent := demoWorld.sent ++ [⟨demoTask.assignedTo, .taskDeleted⟩] }) :=
  C18_delete_by_creator demoEnv demoWorld mgrA "t1" demoTask (by decide) (by decide)
    (by decide) (by decide) (by decide) (by decide)

/-! ## Creation and status change, in full -/

/-- C19: a create request of a manager whose body validates (a non-empty title; an assignee
that is not the requester and is an identity of the directory of role `user`; a priority that
is absent or one of the enum; a due date that is absent or parses to an instant not before the
start of today), with the store write and the audit write going through and the socket server
registered, is answered 201.  The store gets one new task, with `createdBy` the requester, the
given assignee and title, status `pending`, and priority `medium` when none was given; exactly
one record, of action `created`, is appended; and exactly one event is emitted, addressed to
the assignee. -/
theorem C19_create_valid_request (env : Env) (w : World) (requester : User) (body : Body)
    (a t : String) (u : User)
    (hrole : requester.role = Role.manager)
    (hassignee : body.assignedTo = JVal.str a) (ha : a ≠ "") (hself : a ≠ requester.id)
    (hfound : findUser w.users a = some u) (hu : u.role = Role.user)
    (htitle : body.title = JVal.str t) (ht : t ≠ "")
    (hprio : body.priority = JVal.undefined
      ∨ ∃ p, body.priority = JVal.str p ∧ p ∈ priorities)
    (hdue : body.dueDate = JVal.undefined
      ∨ ∃ s d, body.dueDate = JVal.str s ∧ s ≠ "" ∧ env.parseDate s = some d ∧ env.today ≤ d)
    (hsave : env.saveOk = true)
    (haudit : env.auditOk ⟨env.freshId, requester.id, .created, none, .null, .null, .null⟩
      = true)
    (hsocket : env.socket = true) :
    ∃ task : Task,
      postTask env w requester body
        = (Reply.created,
           { users := w.users
             tasks := w.tasks ++ [task]
             log := w.log ++ [⟨env.freshId, requester.id, .created, none, .null, .null, .null⟩]
             sent := w.sent ++ [⟨a, .taskUpdated⟩] })
      ∧ task.id = env.freshId ∧ task.createdBy = requester.id ∧ task.assignedTo = a
      ∧ task.title = t ∧ task.status = "pending"
      ∧ (body.priority = JVal.undefined → task.priority = "medium")
      ∧ (∀ p, body.priority = JVal.str p → task.priority = p) := by
  have hm : isManager requester = true := by simp [isManager, hrole]
  have hpa : postAssignee w.users requester body.assignedTo = none := by
    simp [postAssignee, hassignee, ha, hself, hfound, hu]
  have hdr : dueDateRejected env body.dueDate = false := by
    rcases hdue with h | ⟨s, d, h, hs, hp, hd⟩
    · simp [dueDateRejected, h]
    · simp [dueDateRejected, h, hs, hp, not_lt.mpr hd]
  have hnew : ∃ task : Task,
      newTask env requester body.title body.description body.assignedTo
          (if body.priority.truthy = true then body.priority else JVal.str "medium")
          body.dueDate = some task
        ∧ task.id = env.freshId ∧ task.createdBy = requester.id ∧ task.assignedTo = a
        ∧ task.title = t ∧ task.status = "pending"
        ∧ (body.priority = JVal.undefined → task.priority = "medium")
        ∧ (∀ p, body.priority = JVal.str p → task.priority = p) := by
    have hpr : ∃ q, (if body.priority.truthy = true then body.priority else JVal.str "medium")
          = JVal.str q ∧ q ∈ priorities
          ∧ (body.priority = JVal.undefined → q = "medium")
          ∧ (∀ p, body.priority = JVal.str p → q = p) := by
      rcases hprio with h | ⟨p, h, hp⟩
      · exact ⟨"medium", by simp [h, JVal.truthy], by decide, fun _ => rfl,
          fun p hp => by rw [h] at hp; cases hp⟩
      · have hpne : p ≠ "" := by
          intro h0
          rw [h0] at hp
          exact absurd hp (by decide)
        refine ⟨p, by simp [h, JVal.truthy, hpne], hp, ?_, ?_⟩
        · intro h1; rw [h] at h1; cases h1
        · intro p1 h1; rw [h] at h1; injection h1
    obtain ⟨q, hq, hqm, hq1, hq2⟩ := hpr
    rw [hq]
    unfold newTask
    simp only [htitle, hassignee, Task.assign, ht, ha, hqm, if_true, if_false]
    rcases hdue with h | ⟨s, d, h, hs, hp, _⟩
    · cases hd : body.description <;>
        simp [h, Task.assign] <;> exact ⟨hq1, hq2⟩
    · cases hd : body.description <;>
        simp [h, hs, hp, Task.assign] <;> exact ⟨hq1, hq2⟩
  obtain ⟨task, hn, h1, h2, h3, h4, h5, h6, h7⟩ := hnew
  refine ⟨task, ?_, h1, h2, h3, h4, h5, h6, h7⟩
  simp [postTask, hm, hpa, hdr, hn, hsave, hsocket, createActivity, orNull, SVal.orNull, h1,
    h3, haudit]

/-- C19, at a concrete request on the demo world: `m1` creates a task for `u2`, due today. -/
theorem C19_create_valid_request_witness :
    (postTask demoEnv demoWorld mgrA
        { Body.empty with title := .str "Review", assignedTo := .str "u2",
                          dueDate := .str "today" }).1 = Reply.created
      ∧ (postTask demoEnv demoWorld mgrA
          { Body.empty with title := .str "Review", assignedTo := .str "u2",
                            dueDate := .str "today" }).2.log
          = [⟨"t9", "m1", .created, none, .null, .null, .null⟩]
      ∧ (postTask demoEnv demoWorld mgrA
          { Body.empty with title := .str "Review", assignedTo := .str "u2",
                            dueDate := .str "today" }).2.sent
          = [⟨"u2", .taskUpdated⟩] := by
  obtain ⟨task, h, _⟩ := C19_create_valid_request demoEnv demoWorld mgrA
    { Body.empty with title := .str "Review", assignedTo := .str "u2", dueDate := .str "today" }
    "u2" "Review" usrB (by decide) (by decide) (by decide) (by decide) (by decide) (by decide)
    (by decide) (by decide) (Or.inl (by decide))
    (Or.inr ⟨"today", 100, by decide, by decide, by decide, by decide⟩)
    (by decide) (by decide) (by decide)
  rw [h]
  exact ⟨rfl, rfl, rfl⟩

/-- C20: for a task with status `s` and its `user`-role assignee `U`, an update with a status
`s1` of the enum other than `s` and a comment `c`, with the store write and the audit write
going through and the socket server registered, is answered 200; the stored task is the task
of before with status `s1`; exactly one record is appended, with action `status_changed`,
field `status`, old value `s`, new value `s1`, comment `c` and user `U`; and `task-updated` is
emitted to `U` and to the task's creator (once, when the creator is `U`). -/
theorem C20_user_status_change (env : Env) (w : World) (requester : User) (id : String)
    (body : Body) (task : Task) (s1 c : String)
    (hfind : findTask w.tasks id = some task)
    (hrole : requester.role = Role.user)
    (hmine : task.assignedTo = requester.id)
    (hstatus : body.status = JVal.str s1) (hvalid : s1 ∈ statuses) (hdiff : s1 ≠ task.status)
    (hcomment : body.comment = JVal.str c)
    (hsave : env.saveOk = true)
    (haudit : env.auditOk ⟨id, requester.id, .status_changed, some .status,
      .str task.status, .str s1, .str c⟩ = true)
    (hsocket : env.socket = true) :
    putTask env w requester id body
        = (Reply.ok,
           { users := w.users
             tasks := saveTask w.tasks { task with status := s1 }
             log := w.log ++ [⟨id, requester.id, .status_changed, some .status,
                               .str task.status, .str s1, .str c⟩]
             sent := w.sent ++ ([⟨requester.id, .taskUpdated⟩]
               ++ (if task.createdBy ≠ requester.id
                    then [⟨task.createdBy, .taskUpdated⟩] else [])) })
      ∧ findTask (putTask env w requester id body).2.tasks id
          = some { task with status := s1 } := by
  have hid : task.id = id := findTask_id hfind
  have hne : s1 ≠ "" := by
    intro h0
    rw [h0] at hvalid
    exact absurd hvalid (by decide)
  have key : putTask env w requester id body
        = (Reply.ok,
           { users := w.users
             tasks := saveTask w.tasks { task with status := s1 }
             log := w.log ++ [⟨id, requester.id, .status_changed, some .status,
                               .str task.status, .str s1, .str c⟩]
             sent := w.sent ++ ([⟨requester.id, .taskUpdated⟩]
               ++ (if task.createdBy ≠ requester.id
                    then [⟨task.createdBy, .taskUpdated⟩] else [])) }) := by
    rw [putTask_user_eq env w requester id body task hfind hrole]
    simp [userBranch, hmine, hstatus, JVal.truthy, hne, strictEq, hdiff, createActivity,
      orNull, SVal.orNull, hcomment, hid, haudit, Draft.set, Task.assign, hvalid, putFinish,
      hsave,
      putEmits, hsocket]
  rw [key]
  exact ⟨rfl, findTask_saveTask hfind hid⟩

/-- C20, at a concrete request on the demo world: `u1` starts the pending task. -/
theorem C20_user_status_change_witness :
    putTask demoEnv demoWorld usrA "t1"
        { Body.empty with status := .str "in-progress", comment := .str "starting" }
        = (Reply.ok,
           { users := demoWorld.users
             tasks := saveTask demoWorld.tasks { demoTask with status := "in-progress" }
             log := demoWorld.log ++ [⟨"t1", usrA.id, .status_changed, some .status,
                               .str demoTask.status, .str "in-progress", .str "starting"⟩]
             sent := demoWorld.sent ++ ([⟨usrA.id, .taskUpdated⟩]
               ++ (if demoTask.createdBy ≠ usrA.id
                    then [⟨demoTask.createdBy, .taskUpdated⟩] else [])) })
      ∧ findTask (putTask demoEnv demoWorld usrA "t1"
          { Body.empty with status := .str "in-progress", comment := .str "starting" }).2.tasks
          "t1" = some { demoTask with status := "in-progress" } :=
  C20_user_status_change demoEnv demoWorld usrA "t1"
    { Body.empty with status := .str "in-progress", comment := .str "starting" } demoTask
    "in-progress" "starting" (by decide) (by decide) (by decide) (by decide) (by decide)
    (by decide) (by decide) (by decide) (by decide) (by decide)

/-! ## Reading one task -/

/-- C22 (code defect, evaluated): the manager `m2`, who did not create the task `t1`, asks for
it by id.  The handler tests the assignee for role `user` only: the reply is 200 with the task,
not 403. -/
theorem C22_other_manager_reads_task :
    getTask demoWorld mgrB "t1" = (Reply.ok, some demoTask)
      ∧ mgrB.role = Role.manager ∧ mgrB.id ≠ demoTask.createdBy := by
  decide

/-! ## The audit log only grows -/

theorem createActivity_extends (env : Env) (log : List Activity) (taskId userId : String)
    (action : Action) (field : Option Field) (oldValue : SVal) (newValue comment : JVal) :
    log <+: createActivity env log taskId userId action field oldValue newValue comment := by
  unfold createActivity
  simp only
  split
  · exact ⟨_, rfl⟩
  · exact ⟨[], List.append_nil _⟩

theorem Draft.set_log (env : Env) (st : Draft) (log : List Activity) (f : Field) (v : JVal) :
    (st.set env log f v).log = log := by
  unfold Draft.set
  split <;> rfl

theorem userBranch_extends (env : Env) (requester : User) (body : Body) (st : Draft) :
    st.log <+: (userBranch env requester body st).2.log := by
  unfold userBranch
  split
  · exact ⟨[], List.append_nil _⟩
  · split
    · split
      · simp only [Draft.set_log]
        exact createActivity_extends _ _ _ _ _ _ _ _ _
      · exact ⟨[], List.append_nil _⟩
    · exact ⟨[], List.append_nil _⟩

theorem managerStep_extends (env : Env) (users : List User) (requester : User) (body : Body)
    (f : Field) (st : Draft) :
    st.log <+: (managerStep env users requester body f st).2.log := by
  unfold managerStep
  simp only
  split
  · exact ⟨[], List.append_nil _⟩
  · split
    · exact ⟨[], List.append_nil _⟩
    · split
      · exact ⟨[], List.append_nil _⟩
      · simp only [Draft.set_log]
        exact createActivity_extends _ _ _ _ _ _ _ _ _

theorem managerLoop_extends (env : Env) (users : List User) (requester : User) (body : Body)
    (fs : List Field) :
    ∀ st : Draft, st.log <+: (managerLoop env users requester body fs st).2.log := by
  induction fs with
  | nil => intro st; exact ⟨[], List.append_nil _⟩
  | cons f fs ih =>
    intro st
    obtain ⟨t1, h1⟩ := managerStep_extends env users requester body f st
    cases hstep : (managerStep env users requester body f st).1 with
    | none =>
      rw [managerLoop_cons_none hstep]
      obtain ⟨t2, h2⟩ := ih (managerStep env users requester body f st).2
      exact ⟨t1 ++ t2, by rw [← h2, ← h1, List.append_assoc]⟩
    | some r =>
      rw [managerLoop_cons_some hstep]
      exact ⟨t1, h1⟩

theorem putFinish_log (env : Env) (w : World) (old : String) (p : Option Reply × Draft) :
    (putFinish env w old p).2.log = p.2.log := by
  obtain ⟨o, st⟩ := p
  cases o with
  | some r => rfl
  | none =>
    unfold putFinish
    simp only
    split <;> rfl

/-- C23: invariant I5.  For every creation, update and deletion request, whatever its reply,
the audit log after the request starts with the audit log before it: the records written
earlier are neither changed nor removed, and every record of the log before a deletion, those
of the deleted task among them, is in the log after it. -/
theorem C23_audit_log_is_append_only (env : Env) (w : World) (requester : User) (id : String)
    (body : Body) :
    w.log <+: (postTask env w requester body).2.log
      ∧ w.log <+: (putTask env w requester id body).2.log
      ∧ w.log <+: (deleteTask env w requester id).2.log
      ∧ ∀ e ∈ w.log, e ∈ (deleteTask env w requester id).2.log := by
  have hdel : w.log <+: (deleteTask env w requester id).2.log := by
    unfold deleteTask
    split
    · exact ⟨[], List.append_nil _⟩
    · split
      · exact ⟨[], List.append_nil _⟩
      · split
        · exact ⟨[], List.append_nil _⟩
        · simp only
          split
          · exact createActivity_extends _ _ _ _ _ _ _ _ _
          · exact createActivity_extends _ _ _ _ _ _ _ _ _
  refine ⟨?_, ?_, hdel, ?_⟩
  · unfold postTask
    split
    · exact ⟨[], List.append_nil _⟩
    · split
      · exact ⟨[], List.append_nil _⟩
      · split
        · exact ⟨[], List.append_nil _⟩
        · split
          · exact ⟨[], List.append_nil _⟩
          · split
            · exact ⟨[], List.append_nil _⟩
            · exact createActivity_extends _ _ _ _ _ _ _ _ _
  · unfold putTask
    split
    · exact ⟨[], List.append_nil _⟩
    · rename_i task _
      simp only [putFinish_log]
      split
      · exact userBranch_extends env requester body
          { doc := task, invalid := false, log := w.log }
      · exact managerLoop_extends env w.users requester body updateFields
          { doc := task, invalid := false, log := w.log }
  · intro e he
    obtain ⟨t, ht⟩ := hdel
    rw [← ht]
    exact List.mem_append_left _ he

/-! ## Audit failures do not reach the caller -/

/-- The environment `env` with the outcome of every audit write given by `audit`. -/
def Env.withAudit (env : Env) (audit : Activity → Bool) : Env :=
  { env with auditOk := audit }

/-- Two runs of a handler have the same reply and leave the same identity directory, the same
task store and the same emitted events; their audit logs may differ. -/
def sameOutcome (r1 r2 : Reply × World) : Prop :=
  r1.1 = r2.1 ∧ r1.2.users = r2.2.users ∧ r1.2.tasks = r2.2.tasks ∧ r1.2.sent = r2.2.sent

/-- Two drafts that differ in the audit log only. -/
def sameDraft (st1 st2 : Draft) : Prop :=
  st1.doc = st2.doc ∧ st1.invalid = st2.invalid

theorem sameOutcome_symm {r1 r2 : Reply × World} (h : sameOutcome r1 r2) : sameOutcome r2 r1 :=
  ⟨h.1.symm, h.2.1.symm, h.2.2.1.symm, h.2.2.2.symm⟩

theorem sameOutcome_trans {r1 r2 r3 : Reply × World} (h : sameOutcome r1 r2)
    (k : sameOutcome r2 r3) : sameOutcome r1 r3 :=
  ⟨h.1.trans k.1, h.2.1.trans k.2.1, h.2.2.1.trans k.2.2.1, h.2.2.2.trans k.2.2.2⟩

theorem Task.assign_withAudit (env : Env) (audit : Activity → Bool) (t : Task) (f : Field)
    (v : JVal) : t.assign (env.withAudit audit) f v = t.assign env f v := by
  cases f <;> cases v <;> rfl

theorem dueDateRejected_withAudit (env : Env) (audit : Activity → Bool) (v : JVal) :
    dueDateRejected (env.withAudit audit) v = dueDateRejected env v := by
  cases v <;> rfl

theorem newTask_withAudit (env : Env) (audit : Activity → Bool) (requester : User)
    (title description assignedTo priority dueDate : JVal) :
    newTask (env.withAudit audit) requester title description assignedTo priority dueDate
      = newTask env requester title description assignedTo priority dueDate := by
  unfold newTask
  simp only [Task.assign_withAudit]
  rfl

theorem Draft.set_same (env : Env) (audit : Activity → Bool) (st1 st2 : Draft)
    (log1 log2 : List Activity) (f : Field) (v : JVal) (h : sameDraft st1 st2) :
    sameDraft (st1.set (env.withAudit audit) log1 f v) (st2.set env log2 f v) := by
  obtain ⟨h1, h2⟩ := h
  unfold Draft.set
  rw [Task.assign_withAudit, h1]
  cases st2.doc.assign env f v with
  | none => exact ⟨rfl, rfl⟩
  | some doc => exact ⟨rfl, h2⟩

theorem userBranch_same (env : Env) (audit : Activity → Bool) (requester : User) (body : Body)
    (st1 st2 : Draft) (h : sameDraft st1 st2) :
    (userBranch (env.withAudit audit) requester body st1).1
        = (userBranch env requester body st2).1
      ∧ sameDraft (userBranch (env.withAudit audit) requester body st1).2
          (userBranch env requester body st2).2 := by
  have hd := h.1
  unfold userBranch
  rw [hd]
  by_cases h1 : st2.doc.assignedTo ≠ requester.id
  · simp only [if_pos h1]
    exact ⟨by first | rfl | trivial, h⟩
  · simp only [if_neg h1]
    by_cases h2 : body.status.truthy = true
    · simp only [if_pos h2]
      by_cases h3 : strictEq body.status (SVal.str st2.doc.status) = false
      · simp only [if_pos h3]
        exact ⟨by first | rfl | trivial, Draft.set_same env audit st1 st2 _ _ _ _ h⟩
      · simp only [if_neg h3]
        exact ⟨by first | rfl | trivial, h⟩
    · simp only [if_neg h2]
      exact ⟨by first | rfl | trivial, h⟩

theorem managerStep_same (env : Env) (audit : Activity → Bool) (users : List User)
    (requester : User) (body : Body) (f : Field) (st1 st2 : Draft) (h : sameDraft st1 st2) :
    (managerStep (env.withAudit audit) users requester body f st1).1
        = (managerStep env users requester body f st2).1
      ∧ sameDraft (managerStep (env.withAudit audit) users requester body f st1).2
          (managerStep env users requester body f st2).2 := by
  have hd := h.1
  unfold managerStep
  simp only [dueDateRejected_withAudit]
  rw [hd]
  by_cases h1 : body.get f = JVal.undefined ∨ strictEq (body.get f) (st2.doc.get f) = true
  · simp only [if_pos h1]
    exact ⟨by first | rfl | trivial, h⟩
  · simp only [if_neg h1]
    cases hc : (if f = Field.assignedTo then putAssignee users requester (body.get f)
        else none) with
    | some r => exact ⟨rfl, h⟩
    | none =>
      simp only
      by_cases h2 : f = Field.dueDate ∧ dueDateRejected env (body.get f) = true
      · simp only [if_pos h2]
        exact ⟨by first | rfl | trivial, h⟩
      · simp only [if_neg h2]
        exact ⟨by first | rfl | trivial, Draft.set_same env audit st1 st2 _ _ _ _ h⟩

theorem managerLoop_same (env : Env) (audit : Activity → Bool) (users : List User)
    (requester : User) (body : Body) (fs : List Field) :
    ∀ st1 st2 : Draft, sameDraft st1 st2 →
      (managerLoop (env.withAudit audit) users requester body fs st1).1
          = (managerLoop env users requester body fs st2).1
        ∧ sameDraft (managerLoop (env.withAudit audit) users requester body fs st1).2
            (managerLoop env users requester body fs st2).2 := by
  induction fs with
  | nil => intro st1 st2 h; exact ⟨rfl, h⟩
  | cons f fs ih =>
    intro st1 st2 h
    obtain ⟨k1, k2⟩ := managerStep_same env audit users requester body f st1 st2 h
    cases hstep : (managerStep env users requester body f st2).1 with
    | none =>
      rw [managerLoop_cons_none hstep, managerLoop_cons_none (k1.trans hstep)]
      exact ih _ _ k2
    | some r =>
      rw [managerLoop_cons_some hstep, managerLoop_cons_some (k1.trans hstep)]
      exact ⟨k1, k2⟩

theorem putFinish_same (env : Env) (audit : Activity → Bool) (w : World) (old : String)
    (p1 p2 : Option Reply × Draft) (h1 : p1.1 = p2.1) (h2 : sameDraft p1.2 p2.2) :
    sameOutcome (putFinish (env.withAudit audit) w old p1) (putFinish env w old p2) := by
  obtain ⟨o1, st1⟩ := p1
  obtain ⟨o2, st2⟩ := p2
  simp only at h1 h2
  subst h1
  obtain ⟨hd, hi⟩ := h2
  cases o1 with
  | some r => exact ⟨rfl, rfl, rfl, rfl⟩
  | none =>
    unfold putFinish
    have hs : (env.withAudit audit).saveOk = env.saveOk := rfl
    have hp : putEmits (env.withAudit audit) old st1.doc = putEmits env old st2.doc := by
      rw [hd]; rfl
    simp only [hd, hi, hs, hp]
    by_cases hc : st2.invalid = true ∨ env.saveOk = false
    · simp only [if_pos hc]
      exact ⟨rfl, rfl, rfl, rfl⟩
    · simp only [if_neg hc]
      exact ⟨rfl, rfl, rfl, rfl⟩

theorem putTask_withAudit (env : Env) (audit : Activity → Bool) (w : World) (requester : User)
    (id : String) (body : Body) :
    sameOutcome (putTask (env.withAudit audit) w requester id body)
      (putTask env w requester id body) := by
  unfold putTask
  cases findTask w.tasks id with
  | none => exact ⟨rfl, rfl, rfl, rfl⟩
  | some task =>
    simp only
    apply putFinish_same
    · split
      · exact (userBranch_same env audit requester body _ _ ⟨rfl, rfl⟩).1
      · exact (managerLoop_same env audit w.users requester body updateFields _ _
          ⟨rfl, rfl⟩).1
    · split
      · exact (userBranch_same env audit requester body _ _ ⟨rfl, rfl⟩).2
      · exact (managerLoop_same env audit w.users requester body updateFields _ _
          ⟨rfl, rfl⟩).2

theorem postTask_withAudit (env : Env) (audit : Activity → Bool) (w : World)
    (requester : User) (body : Body) :
    sameOutcome (postTask (env.withAudit audit) w requester body)
      (postTask env w requester body) := by
  unfold postTask
  simp only [dueDateRejected_withAudit, newTask_withAudit]
  have hs : (env.withAudit audit).saveOk = env.saveOk := rfl
  have hk : (env.withAudit audit).socket = env.socket := rfl
  rw [hs, hk]
  split
  · exact ⟨rfl, rfl, rfl, rfl⟩
  · split
    · exact ⟨rfl, rfl, rfl, rfl⟩
    · split
      · exact ⟨rfl, rfl, rfl, rfl⟩
      · split
        · exact ⟨rfl, rfl, rfl, rfl⟩
        · split
          · exact ⟨rfl, rfl, rfl, rfl⟩
          · exact ⟨rfl, rfl, rfl, rfl⟩

theorem deleteTask_withAudit (env : Env) (audit : Activity → Bool) (w : World)
    (requester : User) (id : String) :
    sameOutcome (deleteTask (env.withAudit audit) w requester id)
      (deleteTask env w requester id) := by
  unfold deleteTask
  have hs : (env.withAudit audit).saveOk = env.saveOk := rfl
  have hk : (env.withAudit audit).socket = env.socket := rfl
  rw [hs, hk]
  split
  · exact ⟨rfl, rfl, rfl, rfl⟩
  · split
    · exact ⟨rfl, rfl, rfl, rfl⟩
    · split
      · exact ⟨rfl, rfl, rfl, rfl⟩
      · simp only
        split
        · exact ⟨rfl, rfl, rfl, rfl⟩
        · exact ⟨rfl, rfl, rfl, rfl⟩

/-- C21: for every creation, update and deletion request, and for any two ways `audit1` and
`audit2` in which the audit writes of the request succeed or fail, the reply is the same and
the task store, the identity directory and the emitted events after the request are the same:
a failing `createActivity` changes the audit log only, and never fails, aborts or rolls back
the handler that called it. -/
theorem C21_audit_failure_is_swallowed (env : Env) (audit1 audit2 : Activity → Bool)
    (w : World) (requester : User) (id : String) (body : Body) :
    sameOutcome (postTask (env.withAudit audit1) w requester body)
        (postTask (env.withAudit audit2) w requester body)
      ∧ sameOutcome (putTask (env.withAudit audit1) w requester id body)
        (putTask (env.withAudit audit2) w requester id body)
      ∧ sameOutcome (deleteTask (env.withAudit audit1) w requester id)
        (deleteTask (env.withAudit audit2) w requester id) :=
  ⟨sameOutcome_trans (postTask_withAudit env audit1 w requester body)
      (sameOutcome_symm (postTask_withAudit env audit2 w requester body)),
    sameOutcome_trans (putTask_withAudit env audit1 w requester id body)
      (sameOutcome_symm (putTask_withAudit env audit2 w requester id body)),
    sameOutcome_trans (deleteTask_withAudit env audit1 w requester id)
      (sameOutcome_symm (deleteTask_withAudit env audit2 w requester id))⟩

/-! ## Paging -/

/-- An integer is rounded to itself. -/
theorem roundHalfEven_intCast (k : ℤ) : roundHalfEven (k : ℚ) = k := by
  unfold roundHalfEven
  simp

theorem log_two_nonneg {a : ℚ} (h : 1 ≤ a) : 0 ≤ Int.log 2 a := by
  have hpos : (0 : ℚ) < a := by linarith
  rw [← Int.zpow_le_iff_le_log (by norm_num) hpos]
  simpa using h

theorem log_two_lt {a : ℚ} {x : ℤ} (hpos : 0 < a) (h : a < (2 : ℚ) ^ x) : Int.log 2 a < x := by
  rw [← Int.lt_zpow_iff_log_lt (by norm_num) hpos]
  simpa using h

theorem le_log_two {a : ℚ} {x : ℤ} (hpos : 0 < a) (h : (2 : ℚ) ^ x ≤ a) : x ≤ Int.log 2 a := by
  rw [← Int.zpow_le_iff_le_log (by norm_num) hpos]
  simpa using h

/-- A double holds every integer of magnitude below `2 ^ 53` exactly. -/
theorem toDouble_intCast (n : ℤ) (h : |n| < 2 ^ 53) : toDouble (n : ℚ) = .fin (n : ℚ) := by
  by_cases hn : n = 0
  · subst hn
    simp [toDouble]
  · have hq : (n : ℚ) ≠ 0 := by exact_mod_cast hn
    have ha1 : (1 : ℚ) ≤ |(n : ℚ)| := by
      have : (1 : ℤ) ≤ |n| := Int.one_le_abs hn
      exact_mod_cast this
    have ha2 : |(n : ℚ)| < (2 : ℚ) ^ (53 : ℤ) := by
      rw [show (2 : ℚ) ^ (53 : ℤ) = ((2 ^ 53 : ℤ) : ℚ) by norm_num]
      exact_mod_cast h
    have hpos : (0 : ℚ) < |(n : ℚ)| := by linarith
    have hL0 := log_two_nonneg ha1
    have hL1 := log_two_lt hpos ha2
    generalize hLdef : Int.log 2 |(n : ℚ)| = L at hL0 hL1
    obtain ⟨k, hk⟩ : ∃ k : ℕ, (52 : ℤ) - L = k := ⟨(52 - L).toNat, by omega⟩
    have e1 : L - 52 = -(k : ℤ) := by omega
    have hr : (roundHalfEven (|(n : ℚ)| / (2 : ℚ) ^ (L - 52)) : ℚ) * (2 : ℚ) ^ (L - 52)
        = |(n : ℚ)| := by
      rw [e1, zpow_neg, zpow_natCast, div_inv_eq_mul]
      have hc : |(n : ℚ)| * 2 ^ k = ((|n| * 2 ^ k : ℤ) : ℚ) := by
        push_cast
        rfl
      rw [hc, roundHalfEven_intCast]
      push_cast
      field_simp
    have hmax : max L (-1022) = L := max_eq_left (by omega)
    have hsmall : ¬ (2 : ℚ) ^ (1024 : ℕ) ≤ |(n : ℚ)| := by
      have : (2 : ℚ) ^ (53 : ℤ) ≤ (2 : ℚ) ^ (1024 : ℕ) := by norm_num
      linarith
    unfold toDouble
    simp only [hq, if_false, hLdef, hmax, hr, hsmall]
    by_cases hneg : (n : ℚ) < 0
    · simp only [hneg, if_true, abs_of_neg hneg, neg_neg]
    · simp only [hneg, if_false, abs_of_nonneg (not_lt.mp hneg)]

theorem roundHalfEven_error (x : ℚ) : |(roundHalfEven x : ℚ) - x| ≤ 1 / 2 := by
  have h0 : (⌊x⌋ : ℚ) ≤ x := Int.floor_le x
  have h1 : x < ⌊x⌋ + 1 := Int.lt_floor_add_one x
  unfold roundHalfEven
  simp only
  rw [abs_le]
  split
  · constructor <;> linarith
  · split
    · push_cast
      constructor <;> linarith
    · split
      · constructor <;> linarith
      · push_cast
        constructor <;> linarith

/-- In the normal range a positive real is rounded to a finite double with a relative error
of at most `2 ^ (-53)`. -/
theorem toDouble_pos_error (q : ℚ) (hq : 0 < q) (hlo : (2 : ℚ) ^ (-1022 : ℤ) ≤ q)
    (hhi : q < (2 : ℚ) ^ (1023 : ℤ)) :
    ∃ r : ℚ, toDouble q = .fin r ∧ |r - q| ≤ q / 2 ^ (53 : ℕ) := by
  have hne : q ≠ 0 := ne_of_gt hq
  have habs : |q| = q := abs_of_pos hq
  have hL0 := le_log_two hq hlo
  have hL1 := log_two_lt hq hhi
  have hLq : (2 : ℚ) ^ Int.log 2 q ≤ q := by
    simpa using Int.zpow_log_le_self (b := 2) (by norm_num) hq
  generalize hLdef : Int.log 2 q = L at hL0 hL1 hLq
  have hmax : max L (-1022) = L := max_eq_left hL0
  have hu : (0 : ℚ) < (2 : ℚ) ^ (L - 52) := zpow_pos (by norm_num) _
  have herr := roundHalfEven_error (q / (2 : ℚ) ^ (L - 52))
  have hu2 : (2 : ℚ) ^ (L - 52) / 2 ≤ q / 2 ^ (53 : ℕ) := by
    have e : (2 : ℚ) ^ (L - 52) / 2 = (2 : ℚ) ^ L / 2 ^ (53 : ℕ) := by
      rw [zpow_sub₀ (by norm_num : (2 : ℚ) ≠ 0)]
      norm_num
      ring
    rw [e]
    exact div_le_div_of_nonneg_right hLq (by positivity)
  have hbound : |(roundHalfEven (q / (2 : ℚ) ^ (L - 52)) : ℚ) * (2 : ℚ) ^ (L - 52) - q|
      ≤ q / 2 ^ (53 : ℕ) := by
    have e : (roundHalfEven (q / (2 : ℚ) ^ (L - 52)) : ℚ) * (2 : ℚ) ^ (L - 52) - q
        = ((roundHalfEven (q / (2 : ℚ) ^ (L - 52)) : ℚ) - q / (2 : ℚ) ^ (L - 52))
          * (2 : ℚ) ^ (L - 52) := by
      field_simp
    rw [e, abs_mul, abs_of_pos hu]
    calc |(roundHalfEven (q / (2 : ℚ) ^ (L - 52)) : ℚ) - q / (2 : ℚ) ^ (L - 52)|
          * (2 : ℚ) ^ (L - 52)
        ≤ 1 / 2 * (2 : ℚ) ^ (L - 52) := mul_le_mul_of_nonneg_right herr hu.le
      _ = (2 : ℚ) ^ (L - 52) / 2 := by ring
      _ ≤ q / 2 ^ (53 : ℕ) := hu2
  refine ⟨(roundHalfEven (q / (2 : ℚ) ^ (L - 52)) : ℚ) * (2 : ℚ) ^ (L - 52), ?_, hbound⟩
  have hsmall : ¬ (2 : ℚ) ^ (1024 : ℕ)
      ≤ (roundHalfEven (q / (2 : ℚ) ^ (L - 52)) : ℚ) * (2 : ℚ) ^ (L - 52) := by
    have h1 := (abs_le.mp hbound).2
    have h2 : q / 2 ^ (53 : ℕ) ≤ q := div_le_self hq.le (by norm_num)
    have h3 : (2 : ℚ) ^ (1023 : ℤ) + (2 : ℚ) ^ (1023 : ℤ) = (2 : ℚ) ^ (1024 : ℕ) := by norm_num
    intro hc
    linarith
  unfold toDouble
  simp only [hne, if_false, habs, hLdef, hmax, hsmall, not_lt.mpr hq.le]

theorem toDouble_natCast (t : ℕ) (h : (t : ℤ) < 2 ^ 53) : toDouble (t : ℚ) = .fin (t : ℚ) := by
  have := toDouble_intCast (t : ℤ) (by rw [abs_of_nonneg (by positivity)]; exact h)
  simpa using this

/-- For a count and a limit that doubles hold exactly, `Math.ceil(total / limit)` is the
ceiling of the exact quotient: the rounding of the quotient never crosses an integer. -/
theorem ceilDiv_exact (t : ℕ) (l : ℤ) (ht : (t : ℤ) < 2 ^ 53) (hl1 : 1 ≤ l)
    (hl2 : l < 2 ^ 53) :
    ceilDiv t (.fin (l : ℚ)) = .fin ((⌈(t : ℚ) / (l : ℚ)⌉ : ℤ) : ℚ) := by
  have hlq : (0 : ℚ) < (l : ℚ) := by exact_mod_cast (by omega : 0 < l)
  have hlne : (l : ℚ) ≠ 0 := ne_of_gt hlq
  have hdiv : ceilDiv t (.fin (l : ℚ)) = (toDouble ((t : ℚ) / (l : ℚ))).ceil := by
    unfold ceilDiv
    rw [toDouble_natCast t ht]
    simp [Num.div, hlne]
  rw [hdiv]
  have hq0 : (0 : ℚ) ≤ (t : ℚ) / (l : ℚ) := by positivity
  have hqt : (t : ℚ) / (l : ℚ) ≤ (t : ℚ) := by
    apply div_le_self (by positivity)
    exact_mod_cast hl1
  have htq : (t : ℚ) < 2 ^ (53 : ℕ) := by exact_mod_cast ht
  generalize hc : ⌈(t : ℚ) / (l : ℚ)⌉ = c
  have hc1 : ((c : ℚ) - 1) < (t : ℚ) / (l : ℚ) := by
    have := Int.ceil_lt_add_one ((t : ℚ) / (l : ℚ))
    rw [hc] at this
    linarith
  have hc2 : (t : ℚ) / (l : ℚ) ≤ (c : ℚ) := by
    have := Int.le_ceil ((t : ℚ) / (l : ℚ))
    rw [hc] at this
    exact this
  by_cases hint : (c : ℚ) = (t : ℚ) / (l : ℚ)
  · -- the quotient is an integer
    rw [← hint]
    have hcabs : |c| < 2 ^ 53 := by
      have h0 : (0 : ℚ) ≤ (c : ℚ) := by rw [hint]; exact hq0
      have h1 : (c : ℚ) < 2 ^ (53 : ℕ) := by rw [hint]; linarith
      have h0' : 0 ≤ c := by exact_mod_cast h0
      rw [abs_of_nonneg h0']
      exact_mod_cast h1
    rw [toDouble_intCast c hcabs]
    simp [Num.ceil]
  · have hlt : (t : ℚ) / (l : ℚ) < (c : ℚ) := lt_of_le_of_ne hc2 (Ne.symm hint)
    -- both gaps to the neighbouring integers are at least `1 / l`
    have hup : (t : ℚ) / (l : ℚ) + 1 / (l : ℚ) ≤ (c : ℚ) := by
      have h1 : (t : ℚ) < (c : ℚ) * (l : ℚ) := by rwa [div_lt_iff₀ hlq] at hlt
      have h2 : (t : ℤ) < c * l := by exact_mod_cast h1
      have h3 : (t : ℤ) + 1 ≤ c * l := by omega
      have h4 : (t : ℚ) + 1 ≤ (c : ℚ) * (l : ℚ) := by exact_mod_cast h3
      rw [← add_div, div_le_iff₀ hlq]
      exact h4
    have hdown : (c : ℚ) - 1 + 1 / (l : ℚ) ≤ (t : ℚ) / (l : ℚ) := by
      have h1 : ((c : ℚ) - 1) * (l : ℚ) < (t : ℚ) := by rwa [lt_div_iff₀ hlq] at hc1
      have h2 : (c - 1) * l < (t : ℤ) := by exact_mod_cast h1
      have h3 : (c - 1) * l + 1 ≤ (t : ℤ) := by omega
      have h4 : ((c : ℚ) - 1) * (l : ℚ) + 1 ≤ (t : ℚ) := by exact_mod_cast h3
      rw [le_div_iff₀ hlq, add_mul, one_div, inv_mul_cancel₀ hlne]
      exact h4
    have hqpos : (0 : ℚ) < (t : ℚ) / (l : ℚ) := by
      have : (0 : ℚ) < 1 / (l : ℚ) := by positivity
      have hcpos : (0 : ℚ) ≤ (c : ℚ) - 1 := by
        have h0 : (0 : ℚ) < (c : ℚ) := lt_of_le_of_lt hq0 hlt
        have h0' : 0 < c := by exact_mod_cast h0
        have : 0 ≤ c - 1 := by omega
        exact_mod_cast this
      linarith
    have hl53 : (l : ℚ) < 2 ^ (53 : ℕ) := by exact_mod_cast hl2
    have hinv : (1 : ℚ) / 2 ^ (53 : ℕ) < 1 / (l : ℚ) :=
      one_div_lt_one_div_of_lt hlq hl53
    have hlo : (2 : ℚ) ^ (-1022 : ℤ) ≤ (t : ℚ) / (l : ℚ) := by
      have h1 : (2 : ℚ) ^ (-1022 : ℤ) ≤ 1 / 2 ^ (53 : ℕ) := by
        rw [zpow_neg, one_div]
        apply inv_anti₀ (by positivity)
        norm_num
      have h2 : (1 : ℚ) / (l : ℚ) ≤ (t : ℚ) / (l : ℚ) := by
        have hcpos : (0 : ℚ) ≤ (c : ℚ) - 1 := by
          have h0 : (0 : ℚ) < (c : ℚ) := lt_of_le_of_lt hq0 hlt
          have h0' : 0 < c := by exact_mod_cast h0
          have : 0 ≤ c - 1 := by omega
          exact_mod_cast this
        linarith
      linarith
    have hhi : (t : ℚ) / (l : ℚ) < (2 : ℚ) ^ (1023 : ℤ) := by
      have : (2 : ℚ) ^ (53 : ℕ) ≤ (2 : ℚ) ^ (1023 : ℤ) := by norm_num
      linarith
    obtain ⟨r, hr, herr⟩ := toDouble_pos_error _ hqpos hlo hhi
    have hsmall : (t : ℚ) / (l : ℚ) / 2 ^ (53 : ℕ) < 1 / (l : ℚ) := by
      rw [div_div, div_lt_div_iff₀ (by positivity) hlq]
      have : (t : ℚ) * (l : ℚ) < 2 ^ (53 : ℕ) * (l : ℚ) := by
        exact mul_lt_mul_of_pos_right htq hlq
      linarith
    have hb := abs_le.mp herr
    rw [hr]
    simp only [Num.ceil]
    congr 2
    rw [Int.ceil_eq_iff]
    constructor <;> linarith [hb.1, hb.2]

theorem parseInt_of_parsed (q : Option String) (n : ℤ) (h : parsedInteger q = some n)
    (hn : |n| < 2 ^ 53) : parseInt q = .fin (n : ℚ) := by
  unfold parseInt
  rw [h]
  exact toDouble_intCast n hn

theorem orDefault_fin (n : ℤ) (fallback : ℚ) (h : n ≠ 0) :
    orDefault (.fin (n : ℚ)) fallback = .fin (n : ℚ) := by
  have : (n : ℚ) ≠ 0 := by exact_mod_cast h
  simp [orDefault, Num.truthy, this]

/-- The integer 9007199515875289 lies halfway between two doubles and is rounded to the one
with the even significand. -/
theorem toDouble_tie :
    toDouble 9007199515875289 = .fin 9007199515875288 := by
  have hlog : Int.log 2 (9007199515875289 : ℚ) = 53 := by
    apply le_antisymm
    · have := log_two_lt (a := 9007199515875289) (x := 54) (by norm_num) (by norm_num)
      omega
    · exact le_log_two (by norm_num) (by norm_num)
  have hfloor : ⌊(9007199515875289 : ℚ) / 2⌋ = 4503599757937644 := by
    rw [Int.floor_eq_iff]
    constructor <;> norm_num
  have hround : roundHalfEven ((9007199515875289 : ℚ) / 2) = 4503599757937644 := by
    unfold roundHalfEven
    simp only [hfloor]
    norm_num
  unfold toDouble
  have habs : |(9007199515875289 : ℚ)| = 9007199515875289 := abs_of_pos (by norm_num)
  simp only [habs, hlog]
  norm_num [hround]

/-- A string that starts with a character that is no white space, no sign and no decimal
digit holds no integer for `parseInt`. -/
theorem parsedInteger_non_numeric (c : Char) (cs : List Char)
    (hw : isStrWhiteSpace c = false) (hminus : c ≠ '-') (hplus : c ≠ '+')
    (hd : digitOf 10 c = none) :
    parsedInteger (some (String.mk (c :: cs))) = none := by
  have h0 : c ≠ '0' := by
    intro h
    rw [h] at hd
    exact absurd hd (by decide)
  unfold parsedInteger
  simp only [List.dropWhile, hw]
  cases cs with
  | nil => simp [hminus, hplus, readDigits, hd]
  | cons b r => simp [hminus, hplus, h0, readDigits, hd]

/-- The no-break space U+00A0 before a digit is skipped. -/
theorem parsedInteger_skips_nbsp :
    parsedInteger (some (String.mk [Char.ofNat 160, '2'])) = some 2 := by
  decide

/-- C24 (counterexample): for the query `page=94906268&limit=94906267` the handler has
`page = 94906268` and `limit = 94906267`, both at least 1, and its `skip` is
9007199515875288, while `(page - 1) * limit` is 9007199515875289: the product is not a double
and is rounded. -/
theorem C24_skip_is_rounded :
    pageOf (some "94906268") = Num.fin 94906268
      ∧ limitOf (some "94906267") = Num.fin 94906267
      ∧ skipOf (some "94906268") (some "94906267") = Num.fin 9007199515875288
      ∧ ((94906268 : ℚ) - 1) * 94906267 = 9007199515875289
      ∧ skipOf (some "94906268") (some "94906267")
          ≠ Num.fin (((94906268 : ℚ) - 1) * 94906267) := by
  have hp : pageOf (some "94906268") = Num.fin 94906268 := by
    unfold pageOf
    rw [parseInt_of_parsed (some "94906268") 94906268 (by decide) (by norm_num)]
    exact orDefault_fin 94906268 1 (by norm_num)
  have hl : limitOf (some "94906267") = Num.fin 94906267 := by
    unfold limitOf
    rw [parseInt_of_parsed (some "94906267") 94906267 (by decide) (by norm_num)]
    exact orDefault_fin 94906267 10 (by norm_num)
  have hs : skipOf (some "94906268") (some "94906267") = Num.fin 9007199515875288 := by
    unfold skipOf
    rw [hp, hl]
    have h1 : Num.sub (Num.fin 94906268) (Num.fin 1) = Num.fin 94906267 := by
      have := toDouble_intCast 94906267 (by norm_num)
      simp only [Num.sub]
      norm_num at this ⊢
      exact this
    rw [h1]
    simp only [Num.mul]
    norm_num
    exact toDouble_tie
  refine ⟨hp, hl, hs, by norm_num, ?_⟩
  rw [hs]
  intro h
  injection h with h
  norm_num at h

/-- C24 (amended): in the paging of the task list, for query parameters from which `parseInt`
reads a page of at least 1 and a limit of at least 1, and for a count `total`, all three below
`2 ^ 53` so that a double holds them exactly: the current page is `page`; `totalPages` is the
ceiling of `total / limit`; `hasPrev` holds exactly when `page > 1`; `hasNext` holds exactly
when `page < totalPages`, which is exactly when `page * limit < total`; and `skip` is
`(page - 1) * limit` when that product is below `2 ^ 53` as well.  A parameter from which
`parseInt` reads no integer, or reads zero, falls back to page 1 and limit 10: so does a
missing parameter, the empty string, and every string that starts with a character that is no
white space, sign or decimal digit. -/
theorem C24_pagination_metadata (pageQuery limitQuery : Option String) (total : Nat)
    (page limit : Int)
    (hpage : parsedInteger pageQuery = some page) (hpage1 : 1 ≤ page) (hpage2 : page < 2 ^ 53)
    (hlimit : parsedInteger limitQuery = some limit) (hlimit1 : 1 ≤ limit)
    (hlimit2 : limit < 2 ^ 53)
    (htotal : (total : Int) < 2 ^ 53) :
    ((page - 1) * limit < 2 ^ 53 →
        skipOf pageQuery limitQuery = Num.fin (((page - 1) * limit : ℤ) : ℚ))
      ∧ (listPagination pageQuery limitQuery total).currentPage = Num.fin (page : ℚ)
      ∧ (listPagination pageQuery limitQuery total).totalPages
          = Num.fin ((⌈(total : ℚ) / (limit : ℚ)⌉ : ℤ) : ℚ)
      ∧ (listPagination pageQuery limitQuery total).totalTasks = total
      ∧ ((listPagination pageQuery limitQuery total).hasPrev = true ↔ 1 < page)
      ∧ ((listPagination pageQuery limitQuery total).hasNext = true
          ↔ page < ⌈(total : ℚ) / (limit : ℚ)⌉)
      ∧ ((listPagination pageQuery limitQuery total).hasNext = true ↔ page * limit < total)
      ∧ (∀ q, parsedInteger q = none ∨ parsedInteger q = some 0 →
          pageOf q = Num.fin 1 ∧ limitOf q = Num.fin 10)
      ∧ parsedInteger none = none
      ∧ parsedInteger (some "") = none
      ∧ (∀ (c : Char) (cs : List Char), isStrWhiteSpace c = false → c ≠ '-' → c ≠ '+' →
          digitOf 10 c = none → parsedInteger (some (String.mk (c :: cs))) = none) := by
  have hp : pageOf pageQuery = Num.fin (page : ℚ) := by
    unfold pageOf
    rw [parseInt_of_parsed pageQuery page hpage (by rw [abs_of_nonneg (by omega)]; exact hpage2)]
    exact orDefault_fin page 1 (by omega)
  have hl : limitOf limitQuery = Num.fin (limit : ℚ) := by
    unfold limitOf
    rw [parseInt_of_parsed limitQuery limit hlimit
      (by rw [abs_of_nonneg (by omega)]; exact hlimit2)]
    exact orDefault_fin limit 10 (by omega)
  have hceil := ceilDiv_exact total limit htotal hlimit1 hlimit2
  have hlq : (0 : ℚ) < (limit : ℚ) := by exact_mod_cast (by omega : 0 < limit)
  have hnext : (listPagination pageQuery limitQuery total).hasNext = true
      ↔ page < ⌈(total : ℚ) / (limit : ℚ)⌉ := by
    simp only [listPagination, hp, hl, hceil, Num.lt, decide_eq_true_eq]
    exact Int.cast_lt
  refine ⟨?_, ?_, ?_, rfl, ?_, hnext, ?_, ?_, rfl, by decide, parsedInteger_non_numeric⟩
  · intro hprod
    unfold skipOf
    rw [hp, hl]
    have h1 : Num.sub (Num.fin (page : ℚ)) (Num.fin 1) = Num.fin ((page - 1 : ℤ) : ℚ) := by
      have := toDouble_intCast (page - 1) (by rw [abs_of_nonneg (by omega)]; omega)
      simp only [Num.sub]
      rw [← this]
      push_cast
      rfl
    rw [h1]
    have h2 : 0 ≤ (page - 1) * limit := mul_nonneg (by omega) (by omega)
    have := toDouble_intCast ((page - 1) * limit) (by rw [abs_of_nonneg h2]; exact hprod)
    simp only [Num.mul]
    rw [← this]
    push_cast
    rfl
  · simp only [listPagination, hp]
  · simp only [listPagination, hl, hceil]
  · simp only [listPagination, hp, Num.lt, decide_eq_true_eq]
    exact_mod_cast Iff.rfl
  · rw [hnext, Int.lt_ceil, lt_div_iff₀ hlq]
    exact_mod_cast Iff.rfl
  · intro q hq
    unfold pageOf limitOf parseInt
    rcases hq with h | h <;> rw [h] <;> simp [orDefault, Num.truthy, toDouble]

/-- C24 (amended), at concrete query parameters: page 2 of 25 tasks by 10, and the fallbacks
for the parameters `abc`, `0` and a missing one. -/
theorem C24_pagination_metadata_witness :
    skipOf (some "2") (some "10") = Num.fin ((((2 : ℤ) - 1) * 10 : ℤ) : ℚ)
      ∧ (listPagination (some "2") (some "10") 25).currentPage = Num.fin ((2 : ℤ) : ℚ)
      ∧ (listPagination (some "2") (some "10") 25).totalPages
          = Num.fin ((⌈((25 : ℕ) : ℚ) / ((10 : ℤ) : ℚ)⌉ : ℤ) : ℚ)
      ∧ ((listPagination (some "2") (some "10") 25).hasPrev = true ↔ (1 : ℤ) < 2)
      ∧ ((listPagination (some "2") (some "10") 25).hasNext = true
          ↔ (2 : ℤ) * 10 < ((25 : ℕ) : ℤ))
      ∧ (pageOf (some "abc") = Num.fin 1 ∧ limitOf (some "abc") = Num.fin 10)
      ∧ (pageOf (some "0") = Num.fin 1 ∧ limitOf (some "0") = Num.fin 10)
      ∧ (pageOf none = Num.fin 1 ∧ limitOf none = Num.fin 10) :=
  ⟨(C24_pagination_metadata (some "2") (some "10") 25 2 10 (by decide) (by decide)
      (by decide) (by decide) (by decide) (by decide) (by decide)).1 (by decide),
    (C24_pagination_metadata (some "2") (some "10") 25 2 10 (by decide) (by decide)
      (by decide) (by decide) (by decide) (by decide) (by decide)).2.1,
    (C24_pagination_metadata (some "2") (some "10") 25 2 10 (by decide) (by decide)
      (by decide) (by decide) (by decide) (by decide) (by decide)).2.2.1,
    (C24_pagination_metadata (some "2") (some "10") 25 2 10 (by decide) (by decide)
      (by decide) (by decide) (by decide) (by decide) (by decide)).2.2.2.2.1,
    (C24_pagination_metadata (some "2") (some "10") 25 2 10 (by decide) (by decide)
      (by decide) (by decide) (by decide) (by decide) (by decide)).2.2.2.2.2.2.1,
    (C24_pagination_metadata (some "2") (some "10") 25 2 10 (by decide) (by decide)
      (by decide) (by decide) (by decide) (by decide) (by decide)).2.2.2.2.2.2.2.1
      (some "abc") (Or.inl (by decide)),
    (C24_pagination_metadata (some "2") (some "10") 25 2 10 (by decide) (by decide)
      (by decide) (by decide) (by decide) (by decide) (by decide)).2.2.2.2.2.2.2.1
      (some "0") (Or.inr (by decide)),
    (C24_pagination_metadata (some "2") (some "10") 25 2 10 (by decide) (by decide)
      (by decide) (by decide) (by decide) (by decide) (by decide)).2.2.2.2.2.2.2.1
      none (Or.inl (by decide))⟩

end TaskManager
